import Mathlib

/-!
Verification of the BeyondStorage code-quality checker (Code_Analysis Python
package) against its specification.  The Python sources are shallowly embedded:
file contents are modelled as the list of their lines (Python code always
begins with `content.split('\n')`), strings as Lean `String`s manipulated via
their character lists, and each check becomes a pure Lean function mirroring
the source line by line.  Python's Unicode-aware `str.isalnum`, `str.lower`
and regex classes are modelled at ASCII (the analyzed C# sources are ASCII);
`os.path.relpath(p, ".")` for an already-relative path is modelled as the
identity.
-/

/-! ## Primitive string operations (models of Python `str` builtins) -/

/-- The ASCII whitespace characters removed by Python's `str.strip()`. -/
def isSpacePy (c : Char) : Bool :=
  c = ' ' || c = '\t' || c = '\n' || c = '\r' || c = '\x0b' || c = '\x0c'

/-- A word character in the sense of `char.isalnum() or char == '_'`
(Python's `isalnum` restricted to ASCII) and of the regex class `\w`. -/
def isWordCharPy (c : Char) : Bool :=
  c.isAlphanum || c = '_'

/-- `str.strip()` on a character list. -/
def pyStripList (l : List Char) : List Char :=
  ((l.dropWhile isSpacePy).reverse.dropWhile isSpacePy).reverse

/-- Python `str.strip()`. -/
def pyStrip (s : String) : String := String.mk (pyStripList s.toList)

/-- Python `str.lower()` (ASCII). -/
def pyLower (s : String) : String := String.mk (s.toList.map Char.toLower)

/-- Is `p` a prefix of `l`? (Python `str.startswith`.) -/
def isPrefixL : List Char → List Char → Bool
  | [], _ => true
  | _ :: _, [] => false
  | a :: as, b :: bs => a = b && isPrefixL as bs

/-- Is `p` a suffix of `l`? (Python `str.endswith`.) -/
def isSuffixL (p l : List Char) : Bool := isPrefixL p.reverse l.reverse

/-- Does `sub` occur as a contiguous substring of `l`? (Python `sub in l`.) -/
def containsSubList (sub : List Char) : List Char → Bool
  | [] => isPrefixL sub []
  | c :: cs => isPrefixL sub (c :: cs) || containsSubList sub cs

/-- Python `sub in s` on strings. -/
def containsSub (sub s : String) : Bool := containsSubList sub.toList s.toList

/-- Python `s.startswith (p)`. -/
def pyStartsWith (s p : String) : Bool := isPrefixL p.toList s.toList

/-- Python `s.endswith (p)`. -/
def pyEndsWith (s p : String) : Bool := isSuffixL p.toList s.toList

/-- Index of the first occurrence of `sub` in `l`, if any (Python `str.find`). -/
def findSubIdx (sub : List Char) : List Char → Option Nat
  | [] => if isPrefixL sub [] then some 0 else none
  | c :: cs =>
    if isPrefixL sub (c :: cs) then some 0
    else (findSubIdx sub cs).map (· + 1)

/-- Split at the first occurrence of `sep`, returning the parts before and
after it (Python `s.split(sep, 1)` when `sep` occurs). -/
def splitOnceList (sep : List Char) : List Char → Option (List Char × List Char)
  | [] => if isPrefixL sep [] then some ([], []) else none
  | c :: cs =>
    if isPrefixL sep (c :: cs) then some ([], (c :: cs).drop sep.length)
    else (splitOnceList sep cs).map (fun p => (c :: p.1, p.2))

/-- The part of `l` before the first occurrence of `sep` (the whole of `l` if
`sep` does not occur): Python `s.split(sep)[0]`. -/
def beforeFirst (sep : List Char) (l : List Char) : List Char :=
  match splitOnceList sep l with
  | some p => p.1
  | none => l

/-- Number of non-overlapping occurrences of a nonempty pattern `sub` in `l`
(Python `str.count`); the fuel argument (any value at least the list length
suffices, since every step consumes at least one character) keeps the
function kernel-reducible. -/
def countSubGo (sub : List Char) : Nat → List Char → Nat
  | 0, _ => 0
  | _, [] => 0
  | fuel + 1, c :: cs =>
    if isPrefixL sub (c :: cs) && !sub.isEmpty then
      1 + countSubGo sub fuel ((c :: cs).drop sub.length)
    else
      countSubGo sub fuel cs

/-- Python `str.count` for a nonempty pattern. -/
def countSubList (sub l : List Char) : Nat := countSubGo sub l.length l

/-- Python `line.count('{')` etc.: occurrences of a single character. -/
def countChar (c : Char) (s : String) : Nat := s.toList.count c

/-- Parse a digit run as a natural number (Python `int` on a digit string). -/
def digitsToNat (l : List Char) : Nat :=
  l.foldl (fun a c => a * 10 + (c.toNat - '0'.toNat)) 0

/-! ## Diagnostic model (`models.py`) -/

/-- `models.Issue`: a single code-quality finding. -/
structure Issue where
  file_path : String
  line_number : Nat
  severity : String
  code : String
  description : String
deriving DecidableEq, Repr

/-- `models.CheckResult`: the findings of one named check. -/
structure CheckResult where
  check_name : String
  issues : List Issue
deriving DecidableEq, Repr

/-- `CheckResult.errors` (derived view, computed on demand). -/
def CheckResult.errors (r : CheckResult) : List Issue :=
  r.issues.filter (fun i => i.severity == "error")

/-- `CheckResult.warnings` (derived view, computed on demand). -/
def CheckResult.warnings (r : CheckResult) : List Issue :=
  r.issues.filter (fun i => i.severity == "warning")

/-- `utils.clean_file_path`: strip a leading `./` or `.\`; an absolute path is
made relative (`os.path.relpath(p, ".")`, modelled as the identity for the
already-relative normalized paths this tool produces). -/
def clean_file_path (p : String) : String :=
  if pyStartsWith p "./" || pyStartsWith p ".\\" then String.mk (p.toList.drop 2)
  else p

/-! ## `string_checks.check_empty_catch_blocks` (state machine over lines) -/

/-- State of the empty-catch scanner: inside a catch block or not, the line the
catch opened on, the running brace balance, and whether a content line was
seen. -/
structure CatchState where
  in_catch : Bool
  catch_line : Nat
  brace_count : Int
  has_content : Bool
deriving Repr

/-- One-line step plus continuation of `check_empty_catch_blocks`'s loop
(`string_checks.py` lines 185-213).  `ln` is the 1-based number of the current
line. -/
def emptyCatchGo (path : String) (st : CatchState) : Nat → List String → List Issue
  | _, [] => []
  | ln, line :: rest =>
    let stripped := pyStrip line
    if stripped.toList.isEmpty || pyStartsWith stripped "//" then
      emptyCatchGo path st (ln + 1) rest
    else if containsSub "catch" stripped && containsSub "\x7b" stripped then
      emptyCatchGo path
        { in_catch := true, catch_line := ln,
          brace_count := (countChar '{' stripped : Int) - (countChar '}' stripped : Int),
          has_content := false } (ln + 1) rest
    else if st.in_catch then
      let bc := st.brace_count + (countChar '{' stripped : Int) - (countChar '}' stripped : Int)
      let hc := st.has_content ||
        (!stripped.toList.isEmpty && !(pyStartsWith stripped "//"))
      if bc ≤ 0 then
        (if !hc then
          [⟨clean_file_path path, st.catch_line, "error", "BCS003",
            "Empty catch block found - should handle exceptions properly"⟩]
         else []) ++
        emptyCatchGo path { st with in_catch := false, brace_count := bc, has_content := hc }
          (ln + 1) rest
      else
        emptyCatchGo path { st with brace_count := bc, has_content := hc } (ln + 1) rest
    else
      emptyCatchGo path st (ln + 1) rest

/-- `string_checks.StringBasedChecker.check_empty_catch_blocks`, on the line
list of the file content. -/
def check_empty_catch_blocks (path : String) (lines : List String) : List Issue :=
  emptyCatchGo path ⟨false, 0, 0, false⟩ 1 lines

/-! ## Exit-code contract (`code_check.run_all_checks` / `main`) -/

/-- The issue aggregation of `run_all_checks` (`code_check.py` lines 322-331),
taking the per-file check results as input: all issues are collected in order
and partitioned by severity. -/
def all_issues_of (fileResults : List (List CheckResult)) : List Issue :=
  fileResults.flatMap (fun rs => rs.flatMap CheckResult.issues)

/-- The error list computed by `run_all_checks` (`code_check.py` line 330). -/
def errors_of (fileResults : List (List CheckResult)) : List Issue :=
  (all_issues_of fileResults).filter (fun i => i.severity == "error")

/-- The warning list computed by `run_all_checks` (`code_check.py` line 331). -/
def warnings_of (fileResults : List (List CheckResult)) : List Issue :=
  (all_issues_of fileResults).filter (fun i => i.severity == "warning")

/-- The boolean verdict of `run_all_checks`: `len(errors) == 0`
(`code_check.py` line 341). -/
def run_all_checks_verdict (fileResults : List (List CheckResult)) : Bool :=
  (errors_of fileResults).length == 0

/-- The process exit code set by `main`: `sys.exit(0 if success else 1)`
(`code_check.py` line 352). -/
def main_exit_code (fileResults : List (List CheckResult)) : Nat :=
  if run_all_checks_verdict fileResults then 0 else 1

/-- C1: the exit code is 0 iff the error list is empty, is 1 otherwise, and is
a function of the error list alone, so the warning list never affects it. -/
theorem exit_code_iff_no_errors :
    ∀ frs : List (List CheckResult),
      (main_exit_code frs = 0 ↔ errors_of frs = []) ∧
      (main_exit_code frs = 1 ↔ errors_of frs ≠ []) ∧
      (∀ frs' : List (List CheckResult), errors_of frs = errors_of frs' →
        main_exit_code frs = main_exit_code frs') := by
  intro frs
  have hmain : ∀ l : List (List CheckResult),
      main_exit_code l = if (errors_of l).length == 0 then 0 else 1 := by
    intro l; rfl
  refine ⟨?_, ?_, ?_⟩
  · rw [hmain]
    constructor
    · intro h
      by_cases hl : (errors_of frs).length == 0
      · exact List.length_eq_zero.mp (by simpa using hl)
      · simp [hl] at h
    · intro h; simp [h]
  · rw [hmain]
    constructor
    · intro h
      by_cases hl : (errors_of frs).length == 0
      · simp [hl] at h
      · intro hnil; rw [hnil] at hl; simp at hl
    · intro h
      have : (errors_of frs).length ≠ 0 := by
        intro h0; exact h (List.length_eq_zero.mp h0)
      simp [List.length_eq_zero] at this
      simp [this]
  · intro frs' h
    rw [hmain, hmain, h]

/-- The empty-catch scanner never emits an issue, whatever its state: every
line that reaches the in-catch branch is nonempty and not a `//` comment (the
skip branch filtered those), so it marks the block as having content before
the closing-brace test runs — including the closing `}` line itself. -/
theorem emptyCatchGo_eq_nil :
    ∀ (lines : List String) (path : String) (st : CatchState) (ln : Nat),
      emptyCatchGo path st ln lines = [] := by
  intro lines
  induction lines with
  | nil => intro path st ln; rfl
  | cons l rest ih =>
    intro path st ln
    rw [emptyCatchGo]
    split
    · exact ih ..
    · split
      · exact ih ..
      · split
        · have hns : ¬((pyStrip l).toList.isEmpty || pyStartsWith (pyStrip l) "//") = true := by
            assumption
          simp only [Bool.or_eq_true, not_or, Bool.not_eq_true] at hns
          simp [hns.1, hns.2, ih]
          intro _ _ hdata
          rw [show (pyStrip l).toList = (pyStrip l).data from rfl, hdata] at hns
          simp at hns
        · exact ih ..

/-- A 15-line file whose `catch` opens on line 10 and closes on line 15 with
only comments and blank lines in between (the scenario of C2). -/
def catchDemoLines : List String :=
  ["using System;",
   "internal static class Demo \x7b",
   "private static void Run() \x7b",
   "int x = 1;",
   "try \x7b",
   "x = x + 1;",
   "\x7d ",
   "",
   "// work done",
   "catch (Exception e) \x7b",
   "// intentionally ignored",
   "",
   "// nothing here",
   "",
   "\x7d"]

/-- C2: `check_empty_catch_blocks` produces no issue on any input — in
particular none on a catch block spanning lines 10-15 whose body holds only a
comment, where the claim expects one BCS003 error at line 10.  The closing
brace line always counts as block content, so the BCS003 emission is
unreachable. -/
theorem empty_catch_check_never_fires :
    (∀ (path : String) (lines : List String),
      check_empty_catch_blocks path lines = []) ∧
    check_empty_catch_blocks "./Demo.cs" catchDemoLines = [] := by
  constructor
  · intro path lines
    exact emptyCatchGo_eq_nil ..
  · exact emptyCatchGo_eq_nil ..

/-! ## Word-boundary primitive (`harmony_checks._find_word_in_line`) -/

theorem dropWhile_length_le {α : Type} (p : α → Bool) (l : List α) :
    (l.dropWhile p).length ≤ l.length := by
  induction l with
  | nil => simp
  | cons c cs ih =>
    rw [List.dropWhile]
    by_cases h : p c
    · simp only [h]; exact Nat.le_succ_of_le ih
    · simp [h]

/-- The word-accumulating loop of `HarmonyChecker._find_word_in_line`
(`harmony_checks.py` lines 19-28): split into maximal runs of word
characters, carrying the current partial word. -/
def collectWords : List Char → List Char → List (List Char)
  | [], cur => if cur.isEmpty then [] else [cur]
  | c :: cs, cur =>
    if isWordCharPy c then collectWords cs (cur ++ [c])
    else if cur.isEmpty then collectWords cs []
    else cur :: collectWords cs []

/-- `HarmonyChecker._find_word_in_line`: the line is stripped, split into
maximal word-character runs, and the word is looked up among the runs. -/
def _find_word_in_line (line word : String) : Bool :=
  decide (word.toList ∈ collectWords (pyStrip line).toList [])

/-- The maximal word-character runs of a character list, by direct recursion
(used to reason about `collectWords`). -/
def splitRuns : List Char → List (List Char)
  | [] => []
  | c :: cs =>
    if isWordCharPy c then
      (c :: cs.takeWhile isWordCharPy) :: splitRuns (cs.dropWhile isWordCharPy)
    else
      splitRuns cs
termination_by l => l.length
decreasing_by
  · have := dropWhile_length_le isWordCharPy cs
    simp only [List.length_cons]; omega
  · simp only [List.length_cons]; omega

theorem collectWords_of_ne_nil (l : List Char) :
    ∀ cur : List Char, cur ≠ [] →
      collectWords l cur =
        (cur ++ l.takeWhile isWordCharPy) :: collectWords (l.dropWhile isWordCharPy) [] := by
  induction l with
  | nil =>
    intro cur hcur
    simp [collectWords, List.isEmpty_iff, hcur]
  | cons c cs ih =>
    intro cur hcur
    by_cases h : isWordCharPy c
    · rw [collectWords]
      simp only [h, if_true]
      rw [ih (cur ++ [c]) (by simp)]
      simp [List.takeWhile_cons, List.dropWhile_cons, h]
    · rw [collectWords]
      simp only [h]
      simp [List.isEmpty_iff, hcur, List.takeWhile_cons, List.dropWhile_cons, h,
        collectWords]

theorem collectWords_eq_splitRuns (l : List Char) :
    collectWords l [] = splitRuns l := by
  induction l using splitRuns.induct with
  | case1 => simp [collectWords, splitRuns]
  | case2 c cs h ih =>
    rw [collectWords]
    simp only [h, if_true, List.nil_append]
    rw [collectWords_of_ne_nil cs [c] (by simp)]
    rw [splitRuns]
    simp [h, ih]
  | case3 c cs h ih =>
    rw [collectWords, splitRuns]
    simp [h, ih, collectWords]

theorem takeWhile_append_of_all {α : Type} (p : α → Bool) {xs : List α} (ys : List α)
    (h : ∀ x ∈ xs, p x = true) :
    (xs ++ ys).takeWhile p = xs ++ ys.takeWhile p := by
  induction xs with
  | nil => simp
  | cons x xs ih =>
    have hx := h x (by simp)
    simp only [List.cons_append, List.takeWhile_cons, hx, if_true]
    rw [ih (fun a ha => h a (by simp [ha]))]

theorem dropWhile_append_of_all {α : Type} (p : α → Bool) {xs : List α} (ys : List α)
    (h : ∀ x ∈ xs, p x = true) :
    (xs ++ ys).dropWhile p = ys.dropWhile p := by
  induction xs with
  | nil => simp
  | cons x xs ih =>
    have hx := h x (by simp)
    simp only [List.cons_append, List.dropWhile_cons, hx, if_true]
    exact ih (fun a ha => h a (by simp [ha]))

theorem takeWhile_append_of_exists {α : Type} (p : α → Bool) {xs : List α} (ys : List α)
    (h : ∃ x ∈ xs, p x = false) :
    (xs ++ ys).takeWhile p = xs.takeWhile p := by
  induction xs with
  | nil => obtain ⟨x, hx, -⟩ := h; simp at hx
  | cons x xs ih =>
    by_cases hx : p x = true
    · simp only [List.cons_append, List.takeWhile_cons, hx, if_true]
      obtain ⟨a, ha, hpa⟩ := h
      have ha' : a ∈ xs := by
        rcases List.mem_cons.mp ha with h1 | h1
        · subst h1; rw [hx] at hpa; cases hpa
        · exact h1
      rw [ih ⟨a, ha', hpa⟩]
    · have hx' : p x = false := by simpa using hx
      simp [List.takeWhile_cons, hx']

theorem dropWhile_append_of_exists {α : Type} (p : α → Bool) {xs : List α} (ys : List α)
    (h : ∃ x ∈ xs, p x = false) :
    (xs ++ ys).dropWhile p = xs.dropWhile p ++ ys := by
  induction xs with
  | nil => obtain ⟨x, hx, -⟩ := h; simp at hx
  | cons x xs ih =>
    by_cases hx : p x = true
    · simp only [List.cons_append, List.dropWhile_cons, hx, if_true]
      obtain ⟨a, ha, hpa⟩ := h
      have ha' : a ∈ xs := by
        rcases List.mem_cons.mp ha with h1 | h1
        · subst h1; rw [hx] at hpa; cases hpa
        · exact h1
      exact ih ⟨a, ha', hpa⟩
    · have hx' : p x = false := by simpa using hx
      simp [List.dropWhile_cons, hx']

theorem dropWhile_eq_nil_of_all {α : Type} (p : α → Bool) {xs : List α}
    (h : ∀ x ∈ xs, p x = true) : xs.dropWhile p = [] := by
  induction xs with
  | nil => simp
  | cons x xs ih =>
    simp only [List.dropWhile_cons, h x (by simp), if_true]
    exact ih (fun a ha => h a (by simp [ha]))

theorem takeWhile_eq_self_of_all {α : Type} (p : α → Bool) {xs : List α}
    (h : ∀ x ∈ xs, p x = true) : xs.takeWhile p = xs := by
  induction xs with
  | nil => simp
  | cons x xs ih =>
    simp only [List.takeWhile_cons, h x (by simp), if_true]
    rw [ih (fun a ha => h a (by simp [ha]))]

theorem head?_dropWhile_not {α : Type} (p : α → Bool) (l : List α) :
    ∀ c, (l.dropWhile p).head? = some c → p c = false := by
  induction l with
  | nil => intro c hc; simp at hc
  | cons x xs ih =>
    intro c hc
    by_cases hx : p x = true
    · rw [List.dropWhile_cons_of_pos hx] at hc
      exact ih c hc
    · rw [List.dropWhile_cons_of_neg hx] at hc
      simp only [List.head?_cons, Option.some.injEq] at hc
      subst hc
      simpa using hx

theorem getLast?_dropWhile_of_ne_nil {α : Type} (p : α → Bool) (xs : List α)
    (h : xs.dropWhile p ≠ []) : (xs.dropWhile p).getLast? = xs.getLast? := by
  obtain ⟨u, hu⟩ := List.dropWhile_suffix (l := xs) p
  conv_rhs => rw [← hu]
  rw [List.getLast?_append_of_ne_nil u h]

/-- The run containing a word ends at a non-word character (or the list end). -/
def lastBoundaryL (pre : List Char) : Prop :=
  ∀ c, pre.getLast? = some c → isWordCharPy c = false

/-- The run containing a word is followed by a non-word character (or ends
the list). -/
def headBoundaryL (post : List Char) : Prop :=
  ∀ c, post.head? = some c → isWordCharPy c = false

theorem mem_splitRuns_decomp (l : List Char) :
    ∀ w, w ∈ splitRuns l →
      w ≠ [] ∧ (∀ c ∈ w, isWordCharPy c = true) ∧
        ∃ pre post, l = pre ++ w ++ post ∧ lastBoundaryL pre ∧ headBoundaryL post := by
  induction l using splitRuns.induct with
  | case1 =>
    intro w hw
    rw [splitRuns] at hw
    simp at hw
  | case2 c cs h ih =>
    intro w hw
    rw [splitRuns] at hw
    simp only [h, if_true] at hw
    rcases List.mem_cons.mp hw with hw1 | hw2
    · subst hw1
      refine ⟨by simp, ?_, [], cs.dropWhile isWordCharPy, ?_, ?_, ?_⟩
      · intro x hx
        rcases List.mem_cons.mp hx with h1 | h1
        · subst h1; exact h
        · exact List.mem_takeWhile_imp h1
      · simp [List.takeWhile_append_dropWhile]
      · intro x hx; simp at hx
      · intro x hx; exact head?_dropWhile_not _ _ x hx
    · obtain ⟨hne, hall, pre', post', hdec, hlast, hhead⟩ := ih w hw2
      refine ⟨hne, hall, (c :: cs.takeWhile isWordCharPy) ++ pre', post', ?_, ?_, hhead⟩
      · have : cs = cs.takeWhile isWordCharPy ++ cs.dropWhile isWordCharPy :=
          (List.takeWhile_append_dropWhile _ _).symm
        conv_lhs => rw [this, hdec]
        simp
      · rcases eq_or_ne pre' [] with h0 | h0
        · exfalso
          subst h0
          simp only [List.nil_append] at hdec
          cases w with
          | nil => exact hne rfl
          | cons w0 ws =>
            have hw0 : (cs.dropWhile isWordCharPy).head? = some w0 := by
              rw [hdec]; simp
            have := head?_dropWhile_not isWordCharPy cs w0 hw0
            rw [hall w0 (by simp)] at this
            cases this
        · intro x hx
          have hx' : ((c :: cs.takeWhile isWordCharPy) ++ pre').getLast? = some x := hx
          rw [List.getLast?_append_of_ne_nil _ h0] at hx'
          exact hlast x hx'
  | case3 c cs h ih =>
    intro w hw
    rw [splitRuns] at hw
    simp only [h, if_false] at hw
    obtain ⟨hne, hall, pre', post', hdec, hlast, hhead⟩ := ih w hw
    refine ⟨hne, hall, c :: pre', post', by simp [hdec], ?_, hhead⟩
    intro x hx
    cases pre' with
    | nil =>
      simp only [List.getLast?_singleton, Option.some.injEq] at hx
      subst hx
      simpa using h
    | cons p ps =>
      rw [List.getLast?_cons_cons] at hx
      exact hlast x hx

theorem decomp_mem_splitRuns (l : List Char) :
    ∀ w pre post, w ≠ [] → (∀ c ∈ w, isWordCharPy c = true) →
      l = pre ++ w ++ post → lastBoundaryL pre → headBoundaryL post →
      w ∈ splitRuns l := by
  induction l using splitRuns.induct with
  | case1 =>
    intro w pre post hne _ hdec _ _
    rcases List.append_eq_nil.mp (List.append_eq_nil.mp hdec.symm).1 with ⟨-, h2⟩
    exact absurd h2 hne
  | case2 c cs h ih =>
    intro w pre post hne hall hdec hlast hhead
    cases pre with
    | nil =>
      cases w with
      | nil => exact absurd rfl hne
      | cons w0 ws =>
        simp only [List.nil_append, List.cons_append, List.cons.injEq] at hdec
        obtain ⟨hw0, hcs⟩ := hdec
        subst hw0
        have htw : cs.takeWhile isWordCharPy = ws := by
          rw [hcs, takeWhile_append_of_all _ _ (fun x hx => hall x (by simp [hx]))]
          have : post.takeWhile isWordCharPy = [] := by
            cases post with
            | nil => simp
            | cons d ds =>
              have := hhead d (by simp)
              simp [List.takeWhile_cons, this]
          rw [this, List.append_nil]
        rw [splitRuns]
        simp only [h, if_true]
        exact List.mem_cons.mpr (Or.inl (by rw [htw]))
    | cons p0 pre' =>
      simp only [List.cons_append, List.cons.injEq] at hdec
      obtain ⟨hp0, hcs⟩ := hdec
      subst hp0
      by_cases hex : ∃ x ∈ pre', isWordCharPy x = false
      · have hne' : pre' ≠ [] := by
          obtain ⟨x, hx, -⟩ := hex
          intro h0; subst h0; simp at hx
        have hdw : cs.dropWhile isWordCharPy = pre'.dropWhile isWordCharPy ++ (w ++ post) := by
          rw [hcs, List.append_assoc, dropWhile_append_of_exists _ _ hex]
        have hdw_ne : pre'.dropWhile isWordCharPy ≠ [] := by
          intro h0
          obtain ⟨x, hx, hpx⟩ := hex
          have : x ∈ pre'.takeWhile isWordCharPy := by
            have := List.takeWhile_append_dropWhile isWordCharPy pre'
            rw [h0, List.append_nil] at this
            rw [this]; exact hx
          rw [List.mem_takeWhile_imp this] at hpx
          cases hpx
        have hlast' : lastBoundaryL (pre'.dropWhile isWordCharPy) := by
          intro x hx
          rw [getLast?_dropWhile_of_ne_nil _ _ hdw_ne] at hx
          apply hlast
          have : (c :: pre').getLast? = pre'.getLast? := by
            cases pre' with
            | nil => exact absurd rfl hne'
            | cons q qs => exact List.getLast?_cons_cons ..
          rw [this]
          exact hx
        rw [splitRuns]
        simp only [h, if_true]
        refine List.mem_cons.mpr (Or.inr ?_)
        refine ih w (pre'.dropWhile isWordCharPy) post hne hall ?_ hlast' hhead
        rw [hdw, List.append_assoc]
      · exfalso
        have hex' : ∀ x ∈ pre', isWordCharPy x = true := by
          intro x hx
          by_contra hfx
          exact hex ⟨x, hx, by simpa using hfx⟩
        have hsome : ∃ a, (c :: pre').getLast? = some a := by
          cases h' : (c :: pre').getLast? with
          | none =>
            rw [List.getLast?_eq_none_iff] at h'
            cases h'
          | some a => exact ⟨a, rfl⟩
        obtain ⟨a, ha⟩ := hsome
        have hfa := hlast a ha
        obtain ⟨ys, hys⟩ := List.getLast?_eq_some_iff.mp ha
        have hamem : a ∈ c :: pre' := by rw [hys]; simp
        rcases List.mem_cons.mp hamem with h1 | h1
        · subst h1; rw [h] at hfa; cases hfa
        · rw [hex' a h1] at hfa; cases hfa
  | case3 c cs h ih =>
    intro w pre post hne hall hdec hlast hhead
    cases pre with
    | nil =>
      exfalso
      cases w with
      | nil => exact hne rfl
      | cons w0 ws =>
        simp only [List.nil_append, List.cons_append, List.cons.injEq] at hdec
        obtain ⟨hw0, -⟩ := hdec
        subst hw0
        exact h (hall c (by simp))
    | cons p0 pre' =>
      simp only [List.cons_append, List.cons.injEq] at hdec
      obtain ⟨hp0, hcs⟩ := hdec
      subst hp0
      rw [splitRuns]
      simp only [h, if_false]
      refine ih w pre' post hne hall hcs ?_ hhead
      intro x hx
      apply hlast
      cases pre' with
      | nil => simp at hx
      | cons q qs =>
        rw [List.getLast?_cons_cons]
        exact hx

theorem space_not_word (c : Char) (h : isSpacePy c = true) : isWordCharPy c = false := by
  have h6 : c = ' ' ∨ c = '\t' ∨ c = '\n' ∨ c = '\r' ∨ c = '\x0b' ∨ c = '\x0c' := by
    simpa [isSpacePy, or_assoc] using h
  rcases h6 with h1 | h1 | h1 | h1 | h1 | h1 <;> subst h1 <;> decide

theorem splitRuns_eq_nil_of_all (l : List Char) (h : ∀ c ∈ l, isWordCharPy c = false) :
    splitRuns l = [] := by
  induction l with
  | nil => rw [splitRuns]
  | cons c cs ih =>
    rw [splitRuns]
    simp only [h c (by simp), if_false]
    exact ih (fun x hx => h x (by simp [hx]))

theorem splitRuns_dropWhile_space (l : List Char) :
    splitRuns (l.dropWhile isSpacePy) = splitRuns l := by
  induction l with
  | nil => simp
  | cons c cs ih =>
    by_cases hs : isSpacePy c = true
    · rw [List.dropWhile_cons_of_pos hs, ih]
      conv_rhs => rw [splitRuns]
      simp [space_not_word c hs]
    · rw [List.dropWhile_cons_of_neg (by simpa using hs)]

theorem splitRuns_append_spaces (l : List Char) :
    ∀ sp : List Char, (∀ c ∈ sp, isSpacePy c = true) →
      splitRuns (l ++ sp) = splitRuns l := by
  induction l using splitRuns.induct with
  | case1 =>
    intro sp hsp
    simp only [List.nil_append]
    rw [splitRuns_eq_nil_of_all sp (fun c hc => space_not_word c (hsp c hc))]
    rw [splitRuns]
  | case2 c cs h ih =>
    intro sp hsp
    have hsp' : ∀ c ∈ sp, isWordCharPy c = false :=
      fun x hx => space_not_word x (hsp x hx)
    rw [List.cons_append, splitRuns]
    conv_rhs => rw [splitRuns]
    simp only [h, if_true]
    by_cases hex : ∃ x ∈ cs, isWordCharPy x = false
    · rw [takeWhile_append_of_exists _ _ hex, dropWhile_append_of_exists _ _ hex]
      rw [ih sp hsp]
    · have hall : ∀ x ∈ cs, isWordCharPy x = true := by
        intro x hx
        by_contra hfx
        exact hex ⟨x, hx, by simpa using hfx⟩
      have htw_sp : sp.takeWhile isWordCharPy = [] := by
        cases sp with
        | nil => simp
        | cons d ds => simp [List.takeWhile_cons, hsp' d (by simp)]
      have hdw_sp : sp.dropWhile isWordCharPy = sp := by
        cases sp with
        | nil => simp
        | cons d ds => simp [List.dropWhile_cons, hsp' d (by simp)]
      rw [takeWhile_append_of_all _ _ hall, dropWhile_append_of_all _ _ hall]
      rw [htw_sp, hdw_sp, List.append_nil]
      rw [takeWhile_eq_self_of_all _ hall, dropWhile_eq_nil_of_all _ hall]
      rw [splitRuns_eq_nil_of_all sp hsp', splitRuns]
  | case3 c cs h ih =>
    intro sp hsp
    rw [List.cons_append, splitRuns]
    conv_rhs => rw [splitRuns]
    simp only [h, if_false]
    exact ih sp hsp

theorem splitRuns_pyStripList (l : List Char) :
    splitRuns (pyStripList l) = splitRuns l := by
  unfold pyStripList
  have hm : ∀ m : List Char,
      splitRuns ((m.reverse.dropWhile isSpacePy).reverse) = splitRuns m := by
    intro m
    have hsplit : m = (m.reverse.dropWhile isSpacePy).reverse ++
        (m.reverse.takeWhile isSpacePy).reverse := by
      conv_lhs => rw [← List.reverse_reverse m,
        ← List.takeWhile_append_dropWhile isSpacePy m.reverse]
      rw [List.reverse_append]
    have hsp : ∀ c ∈ (m.reverse.takeWhile isSpacePy).reverse, isSpacePy c = true := by
      intro c hc
      exact List.mem_takeWhile_imp (List.mem_reverse.mp hc)
    calc splitRuns ((m.reverse.dropWhile isSpacePy).reverse)
        = splitRuns ((m.reverse.dropWhile isSpacePy).reverse ++
            (m.reverse.takeWhile isSpacePy).reverse) :=
          (splitRuns_append_spaces _ _ hsp).symm
      _ = splitRuns m := by rw [← hsplit]
  rw [hm (l.dropWhile isSpacePy), splitRuns_dropWhile_space]

/-- The spec-side predicate of C5: `w` occurs in `l` as a maximal run of
characters from `[A-Za-z0-9_]` — a nonempty all-word-character block of `l`
delimited on both sides by a non-word character or the string end. -/
def occursAsMaximalWordRun (w l : String) : Prop :=
  w.toList ≠ [] ∧ (∀ c ∈ w.toList, isWordCharPy c = true) ∧
    ∃ pre post, l.toList = pre ++ w.toList ++ post ∧
      lastBoundaryL pre ∧ headBoundaryL post

/-- C5: the word-boundary containment primitive returns true exactly when the
word occurs in the line as a maximal run of word characters; in particular
`static` is not found inside `StaticHelper` but is found as a standalone
token. -/
theorem find_word_in_line_iff_maximal_run :
    (∀ line word : String,
      _find_word_in_line line word = true ↔ occursAsMaximalWordRun word line) ∧
    _find_word_in_line "StaticHelper x;" "static" = false ∧
    _find_word_in_line "internal static class Foo" "static" = true := by
  refine ⟨?_, by decide, by decide⟩
  intro line word
  unfold _find_word_in_line
  rw [decide_eq_true_eq]
  have h1 : (pyStrip line).toList = pyStripList line.toList := rfl
  rw [h1, collectWords_eq_splitRuns, splitRuns_pyStripList]
  constructor
  · intro h
    obtain ⟨hne, hall, pre, post, hdec, hlast, hhead⟩ :=
      mem_splitRuns_decomp line.toList word.toList h
    exact ⟨hne, hall, pre, post, hdec, hlast, hhead⟩
  · rintro ⟨hne, hall, pre, post, hdec, hlast, hhead⟩
    exact decomp_mem_splitRuns line.toList word.toList pre post hne hall hdec hlast hhead

/-! ## Harmony heuristic primitives (`harmony_checks.py`) -/

theorem dropWhile_idem {α : Type} (p : α → Bool) (l : List α) :
    (l.dropWhile p).dropWhile p = l.dropWhile p := by
  cases h : l.dropWhile p with
  | nil => simp
  | cons c cs =>
    have hc : p c = false := head?_dropWhile_not p l c (by rw [h]; rfl)
    rw [List.dropWhile_cons_of_neg (by simp [hc])]

theorem dropWhile_of_head_not {α : Type} (p : α → Bool) (l : List α)
    (h : ∀ c, l.head? = some c → p c = false) : l.dropWhile p = l := by
  cases l with
  | nil => simp
  | cons c cs =>
    have := h c rfl
    rw [List.dropWhile_cons_of_neg (by simp [this])]

theorem pyStripList_idem (l : List Char) :
    pyStripList (pyStripList l) = pyStripList l := by
  unfold pyStripList
  have h1 : List.dropWhile isSpacePy
        ((List.dropWhile isSpacePy (List.dropWhile isSpacePy l).reverse).reverse) =
      (List.dropWhile isSpacePy (List.dropWhile isSpacePy l).reverse).reverse := by
    apply dropWhile_of_head_not
    intro c hc
    rw [List.head?_reverse] at hc
    have hne : List.dropWhile isSpacePy (List.dropWhile isSpacePy l).reverse ≠ [] := by
      intro h0; rw [h0] at hc; simp at hc
    rw [getLast?_dropWhile_of_ne_nil isSpacePy _ hne, List.getLast?_reverse] at hc
    exact head?_dropWhile_not isSpacePy l c hc
  rw [h1, List.reverse_reverse, dropWhile_idem]

theorem pyStrip_idem (s : String) : pyStrip (pyStrip s) = pyStrip s :=
  congrArg String.mk (pyStripList_idem s.toList)

/-- `HarmonyChecker._extract_class_name`'s character loop: collect word
characters, stop at a terminator (`' '`, `'<'`, `':'`, `'{'`, tab), skip
anything else. -/
def extractClassNameGo : List Char → List Char → List Char
  | [], acc => acc
  | c :: cs, acc =>
    if isWordCharPy c then extractClassNameGo cs (acc ++ [c])
    else if c = ' ' || c = '<' || c = ':' || c = '{' || c = '\t' then acc
    else extractClassNameGo cs acc

/-- `HarmonyChecker._extract_class_name`: the identifier after `class `. -/
def _extract_class_name (line : String) : Option String :=
  match findSubIdx "class ".toList line.toList with
  | none => none
  | some idx =>
    let nm := extractClassNameGo (line.toList.drop (idx + 6)) []
    if nm.isEmpty then none else some (String.mk nm)

/-- `HarmonyChecker._extract_method_name`: walk backwards from the first `(`,
skipping spaces and tabs, then collecting word characters. -/
def _extract_method_name (declaration : String) : Option String :=
  match findSubIdx "(".toList declaration.toList with
  | none => none
  | some paren =>
    let beforeParen := (declaration.toList.take paren).reverse
    let afterSpaces := beforeParen.dropWhile (fun c => c = ' ' || c = '\t')
    let nm := (afterSpaces.takeWhile isWordCharPy).reverse
    if nm.isEmpty then none else some (String.mk nm)

/-- `HarmonyChecker._is_attribute_line`: extract the attribute name from a
line starting with `[`, ignoring a parenthesized argument list. -/
def _is_attribute_line (line : String) : Option String :=
  let l := pyStrip line
  if !pyStartsWith l "[" then none
  else
    match findSubIdx "]".toList l.toList with
    | none => none
    | some close =>
      let attr_content := (l.toList.drop 1).take (close - 1)
      let attr_name :=
        match findSubIdx "(".toList attr_content with
        | some p => pyStripList (attr_content.take p)
        | none => pyStripList attr_content
      if attr_name.isEmpty then none else some (String.mk attr_name)

/-- `HarmonyChecker._remove_generic_params`'s depth-tracking loop. -/
def removeGenericGo : List Char → Int → List Char
  | [], _ => []
  | c :: cs, depth =>
    if c = '<' then removeGenericGo cs (depth + 1)
    else if c = '>' then removeGenericGo cs (depth - 1)
    else if depth = 0 then c :: removeGenericGo cs depth
    else removeGenericGo cs depth

/-- `HarmonyChecker._remove_generic_params`: drop text inside `<...>`. -/
def _remove_generic_params (s : String) : String :=
  String.mk (removeGenericGo s.toList 0)

/-- `HarmonyChecker._is_preprocessor_directive`. -/
def _is_preprocessor_directive (line : String) : Bool :=
  let s := pyStrip line
  pyStartsWith s "#if" || pyStartsWith s "#endif" || pyStartsWith s "#else"

/-! ## `harmony_checks.check_harmony_patch_class_declaration` -/

/-- Lines skipped by the outer loop of the class check: blank, `//`, `*`. -/
def hcOuterSkip (s : String) : Bool :=
  s.toList.isEmpty || pyStartsWith s "//" || pyStartsWith s "*"

/-- Lines skipped while looking ahead for the declaration after a
`[HarmonyPatch]` attribute: blank, comments, other attributes, preprocessor
directives (`harmony_checks.py` lines 147-154). -/
def hcLookSkip (s : String) : Bool :=
  s.toList.isEmpty || pyStartsWith s "//" || pyStartsWith s "*" ||
    pyStartsWith s "[" || _is_preprocessor_directive s

/-- The look-ahead loop after a `[HarmonyPatch]` attribute
(`harmony_checks.py` lines 142-201): returns the offset of the recognized
declaration and the stripped class-declaration line when it is a class
(`some`), `none` in the second component for a method or
struct/interface/enum/delegate, and `none` overall when nothing recognizable
follows. -/
def findDeclAfterPatch : List String → Option (Nat × Option String)
  | [] => none
  | l :: rest =>
    let s := pyStrip l
    if hcLookSkip s then (findDeclAfterPatch rest).map (fun p => (p.1 + 1, p.2))
    else if containsSub "class " s then some (0, some s)
    else if containsSub "(" s &&
        (_find_word_in_line s "public" || _find_word_in_line s "private" ||
         _find_word_in_line s "protected" || _find_word_in_line s "internal" ||
         _find_word_in_line s "static") then some (0, none)
    else if containsSub "struct " s || containsSub "interface " s ||
        containsSub "enum " s || containsSub "delegate " s then some (0, none)
    else (findDeclAfterPatch rest).map (fun p => (p.1 + 1, p.2))

/-- The issue emitted for a class declaration found after `[HarmonyPatch]`
(`harmony_checks.py` lines 156-187): empty exactly when the
generic-stripped declaration carries both `internal` and `static`. -/
def harmonyClassIssue (path : String) (ln : Nat) (declLine : String) : List Issue :=
  let class_decl := _remove_generic_params declLine
  let has_internal := _find_word_in_line class_decl "internal"
  let has_static := _find_word_in_line class_decl "static"
  if has_internal && has_static then []
  else
    let class_name := (_extract_class_name class_decl).getD "unknown"
    let missing :=
      if !has_internal && !has_static then "internal static"
      else if !has_internal then "internal"
      else "static"
    [⟨clean_file_path path, ln, "error", "BCS050",
      "Class '" ++ class_name ++
        "' with [HarmonyPatch] attribute must be declared as '" ++ missing ++
        "' (currently missing: " ++ missing ++ ")"⟩]

/-- The outer scan of `check_harmony_patch_class_declaration`; `ln` is the
1-based number of the current head line.  After handling an attribute the scan
resumes at the recognized declaration line (`i = j` in the source). -/
def hcClassGo (path : String) : Nat → List String → Nat → List Issue
  | 0, _, _ => []
  | _, [], _ => []
  | fuel + 1, l :: rest, ln =>
    if hcOuterSkip (pyStrip l) then hcClassGo path fuel rest (ln + 1)
    else if _is_attribute_line (pyStrip l) = some "HarmonyPatch" then
      match findDeclAfterPatch rest with
      | some (k, some declLine) =>
          harmonyClassIssue path (ln + 1 + k) declLine ++
            hcClassGo path fuel (rest.drop k) (ln + 1 + k)
      | some (k, none) => hcClassGo path fuel (rest.drop k) (ln + 1 + k)
      | none =>
          [⟨clean_file_path path, ln, "error", "BCS051",
            "[HarmonyPatch] attribute found but no recognizable declaration follows"⟩]
    else hcClassGo path fuel rest (ln + 1)

/-- `HarmonyChecker.check_harmony_patch_class_declaration`, on the line list
of the file content.  The fuel (any value above the line count suffices: the
remaining-line list shrinks at every step) keeps the scan kernel-reducible. -/
def check_harmony_patch_class_declaration (path : String) (lines : List String) : List Issue :=
  hcClassGo path (lines.length + 1) lines 1

theorem findDeclAfterPatch_skips (skips : List String) (tail : List String)
    (h : ∀ l ∈ skips, hcLookSkip (pyStrip l) = true) :
    findDeclAfterPatch (skips ++ tail) =
      (findDeclAfterPatch tail).map (fun p => (p.1 + skips.length, p.2)) := by
  induction skips with
  | nil =>
    simp only [List.nil_append, List.length_nil]
    cases findDeclAfterPatch tail <;> simp
  | cons l ls ih =>
    rw [List.cons_append, findDeclAfterPatch]
    simp only [h l (by simp), if_true]
    rw [ih (fun x hx => h x (by simp [hx]))]
    cases findDeclAfterPatch tail with
    | none => simp
    | some p => simp [Nat.add_assoc]

theorem hcClassGo_no_patch (path : String) :
    ∀ (fuel : Nat) (rem : List String) (ln : Nat),
      (∀ l ∈ rem, ¬ _is_attribute_line (pyStrip l) = some "HarmonyPatch") →
      hcClassGo path fuel rem ln = [] := by
  intro fuel
  induction fuel with
  | zero => intro rem ln _; rw [hcClassGo]
  | succ fuel ih =>
    intro rem ln h
    cases rem with
    | nil => simp [hcClassGo]
    | cons l rest =>
      rw [hcClassGo]
      split
      · exact ih rest (ln + 1) (fun x hx => h x (by simp [hx]))
      · split
        · rename_i hattr
          exact absurd hattr (h l (by simp))
        · exact ih rest (ln + 1) (fun x hx => h x (by simp [hx]))

/-- C3: a class declaration preceded by `[HarmonyPatch]` — with any number of
blank/comment/attribute/preprocessor lines in between — is reported with one
BCS050 error at the declaration line exactly when it does not carry both the
`internal` and the `static` modifier; the error names the class and the
missing modifiers through `harmonyClassIssue`. -/
theorem harmony_patch_class_requires_internal_static
    (path decl : String) (skips rest : List String)
    (hsk : ∀ l ∈ skips, hcLookSkip (pyStrip l) = true)
    (hd1 : hcLookSkip (pyStrip decl) = false)
    (hd2 : containsSub "class " (pyStrip decl) = true)
    (hrest : ∀ l ∈ rest, ¬ _is_attribute_line (pyStrip l) = some "HarmonyPatch") :
    check_harmony_patch_class_declaration path
        ("[HarmonyPatch]" :: (skips ++ decl :: rest)) =
      harmonyClassIssue path (skips.length + 2) (pyStrip decl) ∧
    (harmonyClassIssue path (skips.length + 2) (pyStrip decl) = [] ↔
      _find_word_in_line (_remove_generic_params (pyStrip decl)) "internal" = true ∧
      _find_word_in_line (_remove_generic_params (pyStrip decl)) "static" = true) := by
  have hdecl_attr : _is_attribute_line (pyStrip decl) = none := by
    simp only [hcLookSkip, Bool.or_eq_false_iff] at hd1
    obtain ⟨⟨⟨⟨-, -⟩, -⟩, hnb⟩, -⟩ := hd1
    unfold _is_attribute_line
    rw [pyStrip_idem]
    simp [hnb]
  constructor
  · unfold check_harmony_patch_class_declaration
    rw [hcClassGo]
    rw [if_neg (by decide)]
    rw [if_pos (by decide)]
    rw [findDeclAfterPatch_skips skips (decl :: rest) hsk]
    have hfd : findDeclAfterPatch (decl :: rest) = some (0, some (pyStrip decl)) := by
      rw [findDeclAfterPatch]
      rw [if_neg (by simp [hd1])]
      rw [if_pos hd2]
    rw [hfd]
    simp only [Option.map_some', Nat.zero_add]
    have hdrop : (skips ++ decl :: rest).drop skips.length = decl :: rest :=
      List.drop_left skips (decl :: rest)
    rw [hdrop]
    rw [hcClassGo_no_patch path
      ("[HarmonyPatch]" :: (skips ++ decl :: rest)).length (decl :: rest) (1 + 1 + skips.length)
      (by
        intro x hx
        rcases List.mem_cons.mp hx with h1 | h1
        · subst h1; simp [hdecl_attr]
        · exact hrest x h1)]
    rw [List.append_nil]
    have harith : 1 + 1 + skips.length = skips.length + 2 := by omega
    rw [harith]
  · unfold harmonyClassIssue
    by_cases h1 : _find_word_in_line (_remove_generic_params (pyStrip decl)) "internal" = true <;>
      by_cases h2 : _find_word_in_line (_remove_generic_params (pyStrip decl)) "static" = true <;>
        simp [h1, h2]

/-- Witness for C3 at the concrete input `[HarmonyPatch]` / `public class Foo`
/ `{` / `}`: exactly one BCS050 error at line 2 whose description names `Foo`
and the missing modifiers `internal static`. -/
theorem harmony_patch_class_requires_internal_static_witness :
    check_harmony_patch_class_declaration "./Foo.cs"
        ["[HarmonyPatch]", "public class Foo", "\x7b", "\x7d"] =
      [⟨"Foo.cs", 2, "error", "BCS050",
        "Class 'Foo' with [HarmonyPatch] attribute must be declared as 'internal static' (currently missing: internal static)"⟩] := by
  have h := harmony_patch_class_requires_internal_static "./Foo.cs" "public class Foo"
    [] ["\x7b", "\x7d"] (by simp) (by decide) (by decide) (by decide)
  have h2 : harmonyClassIssue "./Foo.cs" (([] : List String).length + 2)
      (pyStrip "public class Foo") =
      [⟨"Foo.cs", 2, "error", "BCS050",
        "Class 'Foo' with [HarmonyPatch] attribute must be declared as 'internal static' (currently missing: internal static)"⟩] := by
    decide
  exact h.1.trans h2

/-! ## `string_checks.check_todo_comments` -/

/-- Shared driver for per-line checks (`for line_num, line in enumerate(lines, 1)`):
apply `f` to each line with its 1-based number and concatenate the issues. -/
def perLineIssues (f : Nat → String → List Issue) : Nat → List String → List Issue
  | _, [] => []
  | n, l :: rest => f n l ++ perLineIssues f (n + 1) rest

/-- The model of `re.sub(r'^todo\s*:?\s*', '', comment_text, flags=IGNORECASE)`
when the text is known to start with `todo` (case-insensitive): drop the four
`todo` characters, any whitespace, one optional `:`, and any whitespace. -/
def stripTodoPrefix (l : List Char) : List Char :=
  let l1 := (l.drop 4).dropWhile isSpacePy
  let l2 := match l1 with
    | ':' :: t => t
    | _ => l1
  l2.dropWhile isSpacePy

/-- The description computed by `check_todo_comments` for a flagged line
(`string_checks.py` lines 136-163): extract the comment text, deduplicate an
existing `todo` prefix, always start with `TODO: `, and truncate long text
(to 97 plus an ellipsis after an existing prefix, to 94 plus an ellipsis
otherwise). -/
def todoDescription (line : String) : String :=
  let ct0 := pyStrip line
  let ct : List Char :=
    if containsSub "//" ct0 then
      pyStripList (((splitOnceList "//".toList ct0.toList).getD ([], [])).2)
    else if containsSub "/*" ct0 then
      let t1 := pyStripList (((splitOnceList "/*".toList ct0.toList).getD ([], [])).2)
      if containsSubList "*/".toList t1 then
        pyStripList (((splitOnceList "*/".toList t1).getD ([], [])).1)
      else t1
    else ct0.toList
  if isPrefixL "todo".toList (ct.map Char.toLower) then
    let cwt := stripTodoPrefix ct
    if cwt.length > 97 then "TODO: " ++ String.mk (cwt.take 97) ++ "..."
    else "TODO: " ++ String.mk cwt
  else
    if ct.length > 94 then "TODO: " ++ String.mk (ct.take 94) ++ "..."
    else "TODO: " ++ String.mk ct

/-- One line of `check_todo_comments`: flag when the stripped lower-cased line
contains `todo` and the raw line contains a comment marker. -/
def todoPerLine (path : String) (ln : Nat) (line : String) : List Issue :=
  if containsSub "todo" (pyLower (pyStrip line)) &&
      (containsSub "//" line || containsSub "/*" line) then
    [⟨clean_file_path path, ln, "warning", "BCW013", todoDescription line⟩]
  else []

/-- `StringBasedChecker.check_todo_comments`, on the line list. -/
def check_todo_comments (path : String) (lines : List String) : List Issue :=
  perLineIssues (todoPerLine path) 1 lines

/-- C6: the two normalization examples produce exactly the claimed
descriptions, but the 100-character bound fails: a `// todo ` comment with 98
trailing characters yields a description of length 106
(`"TODO: "` + 97 characters + `"..."`). -/
theorem todo_description_normalization :
    check_todo_comments "./A.cs" ["// todo fix this later"] =
      [⟨"A.cs", 1, "warning", "BCW013", "TODO: fix this later"⟩] ∧
    check_todo_comments "./A.cs" ["// TODO: already prefixed"] =
      [⟨"A.cs", 1, "warning", "BCW013", "TODO: already prefixed"⟩] ∧
    check_todo_comments "./A.cs" ["// todo " ++ String.mk (List.replicate 98 'a')] =
      [⟨"A.cs", 1, "warning", "BCW013",
        "TODO: " ++ String.mk (List.replicate 97 'a') ++ "..."⟩] ∧
    (todoDescription ("// todo " ++ String.mk (List.replicate 98 'a'))).toList.length = 106 := by
  refine ⟨by decide, by decide, by decide, by decide⟩

/-! ## A small regular-expression engine for the source's `re` patterns

Each Python regex used by the checker is hand-compiled into an `RE` term;
`reSearch` implements `re.search` existence semantics (a match starting at
any position).  Stars and plus repetitions in the source patterns only ever
repeat single-character classes, which keeps the matcher structural. -/

inductive RE where
  | cls (f : Char → Bool)
  | lit (s : List Char)
  | seq (a b : RE)
  | alt (a b : RE)
  | star (f : Char → Bool)
  | opt (a : RE)

/-- Remainders after matching zero or more characters of class `f`. -/
def starRem (f : Char → Bool) : List Char → List (List Char)
  | [] => [[]]
  | c :: cs => (c :: cs) :: (if f c then starRem f cs else [])

/-- All remainders of the input after a match of `r` at its front. -/
def matchRem : RE → List Char → List (List Char)
  | .cls _, [] => []
  | .cls f, c :: cs => if f c then [cs] else []
  | .lit s, l => if isPrefixL s l then [l.drop s.length] else []
  | .seq a b, l => (matchRem a l).flatMap (fun r => matchRem b r)
  | .alt a b, l => matchRem a l ++ matchRem b l
  | .star f, l => starRem f l
  | .opt a, l => l :: matchRem a l

/-- Does `r` match a prefix of `l`? -/
def reMatchAt (r : RE) (l : List Char) : Bool := !(matchRem r l).isEmpty

/-- `re.search`: does `r` match starting at some position of `l`? -/
def reSearch (r : RE) : List Char → Bool
  | [] => reMatchAt r []
  | c :: cs => reMatchAt r (c :: cs) || reSearch r cs

/-- `re.search` bounded by `\b` on the left of the pattern: the match start
must be at the string start or follow a non-word character. -/
def reSearchWordStart (r : RE) : List Char → Bool → Bool
  | [], _ => reMatchAt r []
  | c :: cs, prevW =>
    (!prevW && reMatchAt r (c :: cs)) || reSearchWordStart r cs (isWordCharPy c)

/-- One or more repetitions of a character class. -/
def rePlus (f : Char → Bool) : RE := .seq (.cls f) (.star f)

/-- Exactly `n` repetitions of a character class (`{n}`). -/
def reReps (f : Char → Bool) : Nat → RE
  | 0 => .lit []
  | n + 1 => .seq (.cls f) (reReps f n)

/-- The regex class `[0-9a-fA-F]`. -/
def isHexPy (c : Char) : Bool :=
  c.isDigit || ('a' ≤ c && c ≤ 'f') || ('A' ≤ c && c ≤ 'F')

/-- The regex class `[0-9a-fA-F-]`. -/
def isHexDashPy (c : Char) : Bool := isHexPy c || c = '-'

/-- The regex class `\s` (ASCII). -/
def isRegexSpace (c : Char) : Bool := isSpacePy c

/-- The regex class `.` on a single line (anything; the scanned text holds no
newline since the content was split on newlines). -/
def isAnyChar (_ : Char) : Bool := true

/-! ## `utils.is_guid_context` and `string_checks.check_magic_numbers` -/

/-- `[0-9a-fA-F]{8}-[0-9a-fA-F]{4}-[0-9a-fA-F]{4}-[0-9a-fA-F]{4}-[0-9a-fA-F]{12}`. -/
def fullGuidRE : RE :=
  .seq (reReps isHexPy 8) (.seq (.lit ['-'])
    (.seq (reReps isHexPy 4) (.seq (.lit ['-'])
      (.seq (reReps isHexPy 4) (.seq (.lit ['-'])
        (.seq (reReps isHexPy 4) (.seq (.lit ['-']) (reReps isHexPy 12))))))))

/-- `"[0-9a-fA-F-]+"` (a quoted hex string that might be a GUID). -/
def quotedHexRE : RE := .seq (.lit ['"']) (.seq (rePlus isHexDashPy) (.lit ['"']))

/-- `\x7b[0-9a-fA-F-]+\x7d` (a GUID in braces). -/
def bracedHexRE : RE := .seq (.lit ['\x7b']) (.seq (rePlus isHexDashPy) (.lit ['\x7d']))

/-- The `guid_keywords` list of `utils.is_guid_context`. -/
def guidKeywords : List String :=
  ["guid", "Guid", "GUID", "assembly:", "[assembly:", "typelib"]

/-- `utils.is_guid_context`: a number is exempt if a GUID-shaped token appears
within 20 characters of it, or a GUID/assembly keyword appears anywhere in the
line (case-insensitively). -/
def is_guid_context (l : List Char) (numStart numEnd : Nat) : Bool :=
  let ctxStart := numStart - 20
  let ctxEnd := min l.length (numEnd + 20)
  let context := (l.drop ctxStart).take (ctxEnd - ctxStart)
  reSearch fullGuidRE context || reSearch quotedHexRE context ||
    reSearch bracedHexRE context ||
    guidKeywords.any (fun kw =>
      containsSubList (kw.toList.map Char.toLower) (l.map Char.toLower))

/-- The matches of `re.finditer(r'\b(\d{3,})\b', line)`: maximal digit runs of
length at least 3 whose neighbours are not word characters, with their start
and (exclusive) end positions.  `prevW` records whether the previous character
is a word character.  The first argument is recursion fuel (the scanned list
shrinks strictly at every step, so any fuel at least the list length gives the
scan of the whole list); it keeps the scanner kernel-reducible. -/
def findNumberMatchesGo : Nat → List Char → Nat → Bool → List (Nat × Nat × List Char)
  | 0, _, _, _ => []
  | _, [], _, _ => []
  | fuel + 1, c :: cs, i, prevW =>
    if c.isDigit && !prevW then
      let run := c :: cs.takeWhile Char.isDigit
      let rest := cs.dropWhile Char.isDigit
      let afterOk := match rest.head? with
        | none => true
        | some d => !isWordCharPy d
      if run.length ≥ 3 && afterOk then
        (i, i + run.length, run) :: findNumberMatchesGo fuel rest (i + run.length) true
      else
        findNumberMatchesGo fuel rest (i + run.length) true
    else
      findNumberMatchesGo fuel cs (i + 1) (isWordCharPy c)

/-- All matches of `\b(\d{3,})\b` in a line. -/
def findNumberMatches (l : List Char) : List (Nat × Nat × List Char) :=
  findNumberMatchesGo l.length l 0 false

/-- The `acceptable_numbers` set `{0, 1, 2, -1, 100, 1000}`. -/
def acceptableNumbers : List Int := [0, 1, 2, -1, 100, 1000]

/-- One line of `check_magic_numbers` (`string_checks.py` lines 103-124). -/
def magicPerLine (path : String) (ln : Nat) (line : String) : List Issue :=
  if pyStartsWith (pyStrip line) "//" || pyStartsWith (pyStrip line) "*" then []
  else
    (findNumberMatches line.toList).filterMap (fun m =>
      let number : Int := (digitsToNat m.2.2 : Int)
      if number ∈ acceptableNumbers then none
      else if containsSub "const" (pyLower line) then none
      else if is_guid_context line.toList m.1 m.2.1 then none
      else some ⟨clean_file_path path, ln, "warning", "BCW012",
        "Magic number '" ++ toString number ++ "' - consider using a named constant"⟩)

/-- `StringBasedChecker.check_magic_numbers`, on the line list. -/
def check_magic_numbers (path : String) (lines : List String) : List Issue :=
  perLineIssues (magicPerLine path) 1 lines

/-- A line whose lower-cased text contains `const` yields no magic-number
issue whatever literals it holds. -/
theorem magicPerLine_const (path : String) (n : Nat) (line : String)
    (h : containsSub "const" (pyLower line) = true) :
    magicPerLine path n line = [] := by
  unfold magicPerLine
  split
  · rfl
  · apply List.filterMap_eq_nil_iff.mpr
    intro m _
    by_cases hn : ((digitsToNat m.2.2 : Int)) ∈ acceptableNumbers <;> simp [hn, h]

/-- Every issue emitted by `magicPerLine` carries the line number it was
called with. -/
theorem magicPerLine_line_number (path : String) (n : Nat) (line : String) :
    ∀ issue ∈ magicPerLine path n line, issue.line_number = n := by
  intro issue hm
  unfold magicPerLine at hm
  split at hm
  · simp at hm
  · obtain ⟨m, -, hm2⟩ := List.mem_filterMap.mp hm
    simp only at hm2
    by_cases h1 : ((digitsToNat m.2.2 : Int)) ∈ acceptableNumbers
    · rw [if_pos h1] at hm2; cases hm2
    · rw [if_neg h1] at hm2
      by_cases h2 : containsSub "const" (pyLower line) = true
      · rw [if_pos h2] at hm2; cases hm2
      · rw [if_neg h2] at hm2
        by_cases h3 : is_guid_context line.toList m.1 m.2.1 = true
        · rw [if_pos h3] at hm2; cases hm2
        · rw [if_neg h3] at hm2
          injection hm2 with h
          rw [← h]

/-- Issues of the per-line driver never carry a line number below the
starting count. -/
theorem perLineIssues_magic_ge (path : String) :
    ∀ (ls : List String) (n : Nat) (issue : Issue),
      issue ∈ perLineIssues (magicPerLine path) n ls → n ≤ issue.line_number := by
  intro ls
  induction ls with
  | nil => intro n issue h; simp [perLineIssues] at h
  | cons l rest ih =>
    intro n issue h
    rw [perLineIssues] at h
    rcases List.mem_append.mp h with h1 | h1
    · rw [magicPerLine_line_number path n l issue h1]
    · exact Nat.le_of_succ_le (ih (n + 1) issue h1)

theorem perLineIssues_magic_const_skip (path line : String) (post : List String)
    (hconst : containsSub "const" (pyLower line) = true) :
    ∀ (pre : List String) (n : Nat) (issue : Issue),
      issue ∈ perLineIssues (magicPerLine path) n (pre ++ line :: post) →
      issue.line_number ≠ n + pre.length := by
  intro pre
  induction pre with
  | nil =>
    intro n issue h
    simp only [List.nil_append] at h
    rw [perLineIssues] at h
    rw [magicPerLine_const path n line hconst] at h
    simp only [List.length_nil, Nat.add_zero]
    have := perLineIssues_magic_ge path post (n + 1) issue (by simpa using h)
    omega
  | cons p pre' ih =>
    intro n issue h
    rw [List.cons_append, perLineIssues] at h
    rcases List.mem_append.mp h with h1 | h1
    · rw [magicPerLine_line_number path n p issue h1]
      simp only [List.length_cons]
      omega
    · have := ih (n + 1) issue h1
      simp only [List.length_cons]
      omega

/-- C10: any line whose lower-cased text contains the substring `const`
anywhere — also inside a longer identifier or a trailing comment — contributes
no magic-number issue, whatever numeric literals it holds: no issue of the
check is anchored at that line. -/
theorem const_infix_line_never_flagged
    (path line : String) (pre post : List String)
    (hconst : containsSub "const" (pyLower line) = true) :
    ∀ issue ∈ check_magic_numbers path (pre ++ line :: post),
      issue.line_number ≠ pre.length + 1 := by
  intro issue h
  have := perLineIssues_magic_const_skip path line post hconst pre 1 issue h
  omega

/-- Witness for C10: the line `var x = Constants.Max + 54321;` (no `const`
keyword, `const` only inside `Constants`) in the middle of a file yields no
issue at its line 2. -/
theorem const_infix_line_never_flagged_witness :
    containsSub "const" (pyLower "var x = Constants.Max + 54321;") = true ∧
    ∀ issue ∈ check_magic_numbers "./B.cs"
        (["int a = 5;"] ++ "var x = Constants.Max + 54321;" :: ["int b = 77777;"]),
      issue.line_number ≠ 2 :=
  ⟨by decide,
   const_infix_line_never_flagged "./B.cs" "var x = Constants.Max + 54321;"
     ["int a = 5;"] ["int b = 77777;"] (by decide)⟩

/-- C7: the magic-number allow-set boundary — `99` is below the 3-digit
threshold, `100` is allow-listed, `101` yields exactly one warning whose
description carries the literal, and any line containing `const` is exempt. -/
theorem magic_number_allow_set_boundary (path : String) :
    check_magic_numbers path ["99"] = [] ∧
    check_magic_numbers path ["int x = 100;"] = [] ∧
    check_magic_numbers path ["int x = 101;"] =
      [⟨clean_file_path path, 1, "warning", "BCW012",
        "Magic number '101' - consider using a named constant"⟩] ∧
    (∀ line : String, containsSub "const" (pyLower line) = true →
      check_magic_numbers path [line] = []) := by
  refine ⟨rfl, rfl, rfl, ?_⟩
  intro line hconst
  unfold check_magic_numbers
  rw [perLineIssues, magicPerLine_const path 1 line hconst, perLineIssues]
  rfl

/-- Witness for C7 at the const line `const int x = 12345;`: the literal is
not allow-listed yet no issue is produced. -/
theorem magic_number_allow_set_boundary_witness :
    containsSub "const" (pyLower "const int x = 12345;") = true ∧
    check_magic_numbers "./B.cs" ["const int x = 12345;"] = [] :=
  ⟨by decide,
   (magic_number_allow_set_boundary "./B.cs").2.2.2 "const int x = 12345;" (by decide)⟩

/-! ## `harmony_checks.check_harmony_patch_method_declaration` and the
transpiler callee check

The index-driven Python `while` loops become fuel-based recursions; fuel at
least the line count makes each loop run to its natural end, since every
iteration advances the index. -/

/-- The method-level Harmony attributes. -/
def harmonyMethodAttrs : List String :=
  ["HarmonyPrefix", "HarmonyPostfix", "HarmonyTranspiler", "HarmonyFinalizer"]

/-- Lines skipped while collecting further attributes: blank, comments,
preprocessor directives (`harmony_checks.py` lines 250-254). -/
def hmAttrSkip (s : String) : Bool :=
  s.toList.isEmpty || pyStartsWith s "//" || pyStartsWith s "*" ||
    _is_preprocessor_directive s

/-- The attribute-collection loop after a method-level Harmony attribute
(`harmony_checks.py` lines 248-263): returns the index after the collected
attributes, the accumulated attribute names, and the transpiler flag. -/
def collectAttrsGo : Nat → List String → Nat → List String → Bool →
    Nat × List String × Bool
  | 0, _, k, attrs, isT => (k, attrs, isT)
  | fuel + 1, lines, k, attrs, isT =>
    match lines.get? k with
    | none => (k, attrs, isT)
    | some l =>
      let s := pyStrip l
      if hmAttrSkip s then collectAttrsGo fuel lines (k + 1) attrs isT
      else
        match _is_attribute_line s with
        | some a =>
          if a ∈ harmonyMethodAttrs || a = "HarmonyPatch" || a = "HarmonyDebug" then
            collectAttrsGo fuel lines (k + 1) (attrs ++ [a])
              (isT || containsSub "Transpiler" a)
          else (k, attrs, isT)
        | none => (k, attrs, isT)

/-- Result of the declaration search after the attribute block. -/
inductive DeclFind where
  | found (declStart : Nat) (fullDecl : String)
  | nofind
deriving Repr, DecidableEq

/-- `' '.join` of a list of strings. -/
def joinSpace : List String → String
  | [] => ""
  | [s] => s
  | s :: rest => s ++ " " ++ joinSpace rest

/-- `', '.join` of a list of strings. -/
def joinComma : List String → String
  | [] => ""
  | [s] => s
  | s :: rest => s ++ ", " ++ joinComma rest

/-- The declaration-gathering loop (`harmony_checks.py` lines 270-329):
collect stripped signature lines until one contains `{`, `=>` or ends in `;`,
then accept it as a method declaration when the joined text has parentheses
and a modifier word; returns the final index and the outcome. -/
def findMethodDeclGo : Nat → List String → Nat → Option Nat → List String →
    Nat × DeclFind
  | 0, _, j, _, _ => (j, .nofind)
  | fuel + 1, lines, j, startLine, acc =>
    match lines.get? j with
    | none => (j, .nofind)
    | some l =>
      let s := pyStrip l
      if hcLookSkip s then findMethodDeclGo fuel lines (j + 1) startLine acc
      else
        let sl := startLine.getD j
        let acc' := acc ++ [s]
        if containsSub "\x7b" s || containsSub "=>" s || pyEndsWith s ";" then
          let full := joinSpace acc'
          if containsSub "(" full &&
              (_find_word_in_line full "public" || _find_word_in_line full "private" ||
               _find_word_in_line full "protected" || _find_word_in_line full "internal" ||
               _find_word_in_line full "static") then
            (j, .found sl full)
          else (j, .nofind)
        else findMethodDeclGo fuel lines (j + 1) (some sl) acc'

/-- The brace-counting loop locating the end of the transpiler method body
(`harmony_checks.py` lines 352-364): the first index past `i0` where the
balance returns to zero, or the line count. -/
def findMethodEndGo : Nat → List String → Nat → Nat → Int → Nat
  | 0, lines, _, _, _ => lines.length
  | fuel + 1, lines, i0, i, bc =>
    match lines.get? i with
    | none => lines.length
    | some l =>
      let s := pyStrip l
      if s.toList.isEmpty || pyStartsWith s "//" then
        findMethodEndGo fuel lines i0 (i + 1) bc
      else
        let bc' := bc + (countChar '{' s : Int) - (countChar '}' s : Int)
        if bc' = 0 ∧ i0 < i then i
        else findMethodEndGo fuel lines i0 (i + 1) bc'

/-- The visibility record stored in `method_visibility`. -/
structure VisInfo where
  is_private : Bool
  is_public : Bool
  is_static : Bool
deriving Repr, DecidableEq

/-- `str.split()`: split on whitespace runs, discarding empties. -/
def splitWsGo : List Char → List Char → List (List Char)
  | [], cur => if cur.isEmpty then [] else [cur]
  | c :: cs, cur =>
    if isSpacePy c then
      (if cur.isEmpty then splitWsGo cs [] else cur :: splitWsGo cs [])
    else splitWsGo cs (cur ++ [c])

/-- Python `str.split()` with no separator. -/
def splitWs (l : List Char) : List (List Char) := splitWsGo l []

/-- The per-line entry of the visibility table (`harmony_checks.py`
lines 370-394): a line with a `(`, a visibility keyword among the
whitespace-split words before the first `(`, and an extractable method name;
`is_static` is the substring test `'static' in line.split('(')[0]`. -/
def visibilityOfLine (line : String) : Option (String × VisInfo) :=
  if containsSub "(" line then
    let before := beforeFirst "(".toList line.toList
    let words := splitWs before
    match words.find? (fun w =>
        w == "public".toList || w == "private".toList ||
        w == "protected".toList || w == "internal".toList) with
    | none => none
    | some vis =>
      match _extract_method_name line with
      | none => none
      | some name =>
        some (name,
          ⟨vis == "private".toList, vis == "public".toList,
           containsSubList "static".toList before⟩)
  else none

/-- The `method_visibility` table in file order. -/
def method_visibility (lines : List String) : List (String × VisInfo) :=
  lines.filterMap visibilityOfLine

/-- Dictionary lookup with Python's last-assignment-wins semantics. -/
def lookupVis (lines : List String) (name : String) : Option VisInfo :=
  ((method_visibility lines).reverse.find? (fun e => e.1 == name)).map (·.2)

/-- The call-site scan of one line (`harmony_checks.py` lines 404-421): at
every `(` walk backwards over spaces and tabs, then collect the word
characters; `prev` holds the already-seen prefix reversed. -/
def callNamesGo : List Char → List Char → List String
  | [], _ => []
  | c :: rest, prev =>
    if c = '(' then
      let p := prev.dropWhile (fun ch => ch = ' ' || ch = '\t')
      let nm := (p.takeWhile isWordCharPy).reverse
      (if nm.isEmpty then [] else [String.mk nm]) ++ callNamesGo rest (c :: prev)
    else callNamesGo rest (c :: prev)

/-- The called-method names found on a line, in scan order. -/
def callNames (l : List Char) : List String := callNamesGo l []

/-- The BCS053 issue for a transpiler calling an insufficiently private
method. -/
def mkTranspilerCallIssue (path tname callee : String) (ln : Nat) : Issue :=
  ⟨clean_file_path path, ln, "error", "BCS053",
   "Transpiler method '" ++ tname ++ "' calls method '" ++ callee ++
     "' which should be private (utility methods can be public static)"⟩

/-- The issues contributed by one body line of the transpiler check
(`harmony_checks.py` lines 397-438): skip blank and `//` lines; flag a callee
found in the visibility table unless it is private or public-and-static. -/
def transpilerCallIssuesLine (path tname : String) (lines : List String)
    (i : Nat) (line : String) : List Issue :=
  if (pyStrip line).toList.isEmpty || pyStartsWith (pyStrip line) "//" then []
  else
    (callNames (pyStrip line).toList).filterMap (fun n =>
      match lookupVis lines n with
      | none => none
      | some v =>
        if v.is_public && v.is_static then none
        else if !v.is_private then some (mkTranspilerCallIssue path tname n (i + 1))
        else none)

/-- `HarmonyChecker._check_transpiler_method_calls_simple` (the broad
`except` in the source is dead: every step of this computation is total). -/
def _check_transpiler_method_calls_simple (path : String) (lines : List String)
    (method_start : Nat) (tname : String) : List Issue :=
  let method_end := findMethodEndGo lines.length lines method_start method_start 0
  (List.range' method_start (method_end - method_start)).flatMap (fun i =>
    match lines.get? i with
    | none => []
    | some line => transpilerCallIssuesLine path tname lines i line)

/-- The outer scan of `check_harmony_patch_method_declaration`; `i` is the
0-based current index, and the scan resumes at the declaration-terminating
line after each handled attribute (`i = j` in the source). -/
def hmGo (path : String) (lines : List String) : Nat → Nat → List Issue
  | 0, _ => []
  | fuel + 1, i =>
    match lines.get? i with
    | none => []
    | some l =>
      if hcOuterSkip (pyStrip l) then hmGo path lines fuel (i + 1)
      else
        match _is_attribute_line (pyStrip l) with
        | some a =>
          if a ∈ harmonyMethodAttrs then
            let c := collectAttrsGo lines.length lines (i + 1) [a]
              (containsSub "Transpiler" a)
            let fd := findMethodDeclGo lines.length lines c.1 none []
            let issues :=
              match fd.2 with
              | .found sl full =>
                let mname := (_extract_method_name full).getD "unknown"
                if !_find_word_in_line full "private" then
                  [⟨clean_file_path path, sl + 1, "error", "BCS052",
                    "Method '" ++ mname ++ "' with [" ++ joinComma c.2.1 ++
                      "] attribute(s) must be private"⟩]
                else if c.2.2 then
                  _check_transpiler_method_calls_simple path lines fd.1 mname
                else []
              | .nofind =>
                [⟨clean_file_path path, i + 1, "error", "BCS054",
                  "[" ++ joinComma c.2.1 ++
                    "] attribute(s) found but no method declaration follows"⟩]
            issues ++ hmGo path lines fuel fd.1
          else hmGo path lines fuel (i + 1)
        | none => hmGo path lines fuel (i + 1)

/-- `HarmonyChecker.check_harmony_patch_method_declaration`, on the line
list. -/
def check_harmony_patch_method_declaration (path : String) (lines : List String) :
    List Issue :=
  hmGo path lines (lines.length + 1) 0

/-- A call site of `name` on line index `i` inside the computed body of the
transpiler method starting at index `ms`: the line is within the
brace-balanced range, not blank, not a `//` comment, and contains a call of
`name`. -/
def callSiteInBody (lines : List String) (ms : Nat) (name : String) (i : Nat) : Prop :=
  ms ≤ i ∧ i < findMethodEndGo lines.length lines ms ms 0 ∧
  ∃ line, lines.get? i = some line ∧ (pyStrip line).toList ≠ [] ∧
    pyStartsWith (pyStrip line) "//" = false ∧ name ∈ callNames (pyStrip line).toList

theorem mkTranspilerCallIssue_inj {path t n n' : String} {l l' : Nat}
    (h : mkTranspilerCallIssue path t n l = mkTranspilerCallIssue path t n' l') :
    n = n' ∧ l = l' := by
  unfold mkTranspilerCallIssue at h
  injection h with h1 h2 h3 h4 h5
  refine ⟨?_, h2⟩
  apply String.ext
  have hd := congrArg String.data h5
  simp only [String.data_append] at hd
  exact List.append_cancel_left (List.append_cancel_right hd)

/-- The scenario file of C4: a private transpiler calling a same-file
`protected` helper. -/
def transpilerDemoA : List String :=
  ["[HarmonyTranspiler]",
   "private static object Transpiler(object instructions)",
   "\x7b",
   "Helper();",
   "\x7d",
   "protected void Helper()",
   "\x7b",
   "\x7d"]

/-- The same scenario with a `public static` helper. -/
def transpilerDemoB : List String :=
  ["[HarmonyTranspiler]",
   "private static object Transpiler(object instructions)",
   "\x7b",
   "Helper();",
   "\x7d",
   "public static void Helper()",
   "\x7b",
   "\x7d"]

/-- C4: a call to a same-file method found in the visibility table is flagged
with the BCS053 error exactly when the callee is neither declared private nor
declared public and static; in particular the end-to-end check on the
`protected Helper` scenario yields exactly one error citing `Helper` at its
call line, and none when `Helper` is `public static`. -/
theorem transpiler_call_flagged_iff
    (path tname name : String) (lines : List String) (ms i : Nat) (v : VisInfo)
    (hv : lookupVis lines name = some v)
    (hsite : callSiteInBody lines ms name i) :
    (mkTranspilerCallIssue path tname name (i + 1) ∈
        _check_transpiler_method_calls_simple path lines ms tname ↔
      (v.is_public && v.is_static) = false ∧ v.is_private = false) ∧
    check_harmony_patch_method_declaration "./T.cs" transpilerDemoA =
      [mkTranspilerCallIssue "./T.cs" "Transpiler" "Helper" 4] ∧
    check_harmony_patch_method_declaration "./T.cs" transpilerDemoB = [] := by
  refine ⟨?_, by decide, by decide⟩
  obtain ⟨hms, hlt, line, hget, hne, hcmt, hnm⟩ := hsite
  constructor
  · intro hmem
    unfold _check_transpiler_method_calls_simple at hmem
    obtain ⟨i', hi', hmem2⟩ := List.mem_flatMap.mp hmem
    cases hget' : lines.get? i' with
    | none => rw [hget'] at hmem2; simp at hmem2
    | some line' =>
      rw [hget'] at hmem2
      simp only at hmem2
      unfold transpilerCallIssuesLine at hmem2
      by_cases hskip :
          ((pyStrip line').toList.isEmpty || pyStartsWith (pyStrip line') "//") = true
      · rw [if_pos hskip] at hmem2; simp at hmem2
      · rw [if_neg hskip] at hmem2
        obtain ⟨n', hn', heq⟩ := List.mem_filterMap.mp hmem2
        split at heq
        · simp at heq
        · rename_i v' hlv
          by_cases hps : (v'.is_public && v'.is_static) = true
          · rw [if_pos hps] at heq; simp at heq
          · rw [if_neg hps] at heq
            by_cases hpr : (!v'.is_private) = true
            · rw [if_pos hpr] at heq
              injection heq with heq2
              obtain ⟨hn_eq, -⟩ := mkTranspilerCallIssue_inj heq2
              subst hn_eq
              rw [hv] at hlv
              injection hlv with hv_eq
              subst hv_eq
              exact ⟨by simpa using hps, by simpa using hpr⟩
            · rw [if_neg hpr] at heq; simp at heq
  · rintro ⟨hps, hpriv⟩
    unfold _check_transpiler_method_calls_simple
    apply List.mem_flatMap.mpr
    refine ⟨i, ?_, ?_⟩
    · apply List.mem_range'.mpr
      exact ⟨i - ms, by omega, by omega⟩
    · simp only [hget]
      unfold transpilerCallIssuesLine
      have hemp : (pyStrip line).toList.isEmpty = false := by
        cases h0 : (pyStrip line).toList with
        | nil => exact absurd h0 hne
        | cons a as => rfl
      rw [if_neg (by
        simp only [Bool.or_eq_true, not_or, Bool.not_eq_true]
        exact ⟨hemp, hcmt⟩)]
      apply List.mem_filterMap.mpr
      refine ⟨name, hnm, ?_⟩
      rw [hv]
      simp only
      rw [if_neg (by simp [hps]), if_pos (by simp [hpriv])]

/-- Witness for C4: in the `protected Helper` scenario the lookup succeeds
with a neither-private-nor-public-static record, and the flagged-iff
equivalence holds at the concrete call site (line 4). -/
theorem transpiler_call_flagged_iff_witness :
    lookupVis transpilerDemoA "Helper" = some ⟨false, false, false⟩ ∧
    (mkTranspilerCallIssue "./T.cs" "Transpiler" "Helper" 4 ∈
        _check_transpiler_method_calls_simple "./T.cs" transpilerDemoA 2 "Transpiler" ↔
      ((false : Bool) && false) = false ∧ (false : Bool) = false) :=
  ⟨by decide,
   (transpiler_call_flagged_iff "./T.cs" "Transpiler" "Helper" transpilerDemoA 2 3
      ⟨false, false, false⟩ (by decide)
      ⟨by decide, by decide, "Helper();", rfl, by decide, by decide, by decide⟩).1⟩

/-! ## Remaining string-based checks (`string_checks.py`, `utils.py`,
`code_check.py`) -/

/-- `utils.extract_method_name`'s regex `\s+(\w+)\s*\(`: the leftmost
whitespace followed by a word run, optional whitespace and `(`; the word run
is the captured name. -/
def emnGo : List Char → Option String
  | [] => none
  | c :: cs =>
    if isSpacePy c then
      let afterSp := cs.dropWhile isSpacePy
      let run := afterSp.takeWhile isWordCharPy
      let afterRun := (afterSp.dropWhile isWordCharPy).dropWhile isSpacePy
      if !run.isEmpty && afterRun.head? = some '(' then some (String.mk run)
      else emnGo cs
    else emnGo cs

/-- `utils.extract_method_name`. -/
def extract_method_name (line : String) : String :=
  (emnGo line.toList).getD "unknown"

/-- `\w+\s*!=\s*null\s*&&\s*\w+\.\w+` (`check_null_checks`). -/
def nullCheckRE : RE :=
  .seq (rePlus isWordCharPy) (.seq (.star isRegexSpace) (.seq (.lit "!=".toList)
    (.seq (.star isRegexSpace) (.seq (.lit "null".toList) (.seq (.star isRegexSpace)
      (.seq (.lit "&&".toList) (.seq (.star isRegexSpace) (.seq (rePlus isWordCharPy)
        (.seq (.lit ['.']) (rePlus isWordCharPy))))))))))

/-- `"\s*\+\s*\w+\s*\+\s*"` (`check_string_interpolation`, first pattern). -/
def strInterpRE1 : RE :=
  .seq (.lit ['"']) (.seq (.star isRegexSpace) (.seq (.lit ['+'])
    (.seq (.star isRegexSpace) (.seq (rePlus isWordCharPy)
      (.seq (.star isRegexSpace) (.seq (.lit ['+'])
        (.seq (.star isRegexSpace) (.lit ['"']))))))))

/-- `"\w*"\s*\+\s*\w+` (`check_string_interpolation`, second pattern). -/
def strInterpRE2 : RE :=
  .seq (.lit ['"']) (.seq (.star isWordCharPy) (.seq (.lit ['"'])
    (.seq (.star isRegexSpace) (.seq (.lit ['+'])
      (.seq (.star isRegexSpace) (rePlus isWordCharPy))))))

/-- `(for|foreach|while)\s*\(`, used under a leading `\b`
(`check_string_in_loops`). -/
def loopKwRE : RE :=
  .seq (.alt (.lit "for".toList) (.alt (.lit "foreach".toList) (.lit "while".toList)))
    (.seq (.star isRegexSpace) (.lit ['(']))

/-- `"\s*\+|string\s*\+|\w+\s*\+=\s*"` (`check_string_in_loops`). -/
def strLoopRE1 : RE :=
  .alt (.seq (.lit ['"']) (.seq (.star isRegexSpace) (.lit ['+'])))
    (.alt (.seq (.lit "string".toList) (.seq (.star isRegexSpace) (.lit ['+'])))
      (.seq (rePlus isWordCharPy) (.seq (.star isRegexSpace)
        (.seq (.lit "+=".toList) (.seq (.star isRegexSpace) (.lit ['"']))))))

/-- `\w+\s*\+=\s*\w+\s*\+\s*"` (`check_string_in_loops`). -/
def strLoopRE2 : RE :=
  .seq (rePlus isWordCharPy) (.seq (.star isRegexSpace)
    (.seq (.lit "+=".toList) (.seq (.star isRegexSpace)
      (.seq (rePlus isWordCharPy) (.seq (.star isRegexSpace)
        (.seq (.lit ['+']) (.seq (.star isRegexSpace) (.lit ['"']))))))))

/-- `\.Count\(\)\s*>\s*0` (`check_linq_performance`). -/
def countGtZeroRE : RE :=
  .seq (.lit ".Count()".toList) (.seq (.star isRegexSpace)
    (.seq (.lit ['>']) (.seq (.star isRegexSpace) (.lit ['0']))))

/-- `(public|private|protected|internal).*\w+\s*\([^)]*\)`
(`check_cyclomatic_complexity`'s method detector). -/
def cycloMethodRE : RE :=
  .seq (.alt (.lit "public".toList) (.alt (.lit "private".toList)
      (.alt (.lit "protected".toList) (.lit "internal".toList))))
    (.seq (.star isAnyChar) (.seq (rePlus isWordCharPy)
      (.seq (.star isRegexSpace) (.seq (.lit ['('])
        (.seq (.star (fun c => !(c = ')'))) (.lit [')']))))))

/-- `StringBasedChecker.check_null_checks`, on the line list. -/
def check_null_checks (path : String) (lines : List String) : List Issue :=
  perLineIssues (fun ln line =>
    if pyStartsWith (pyStrip line) "//" then []
    else if reSearch nullCheckRE line.toList then
      [⟨clean_file_path path, ln, "warning", "BCW022",
        "Consider using null-conditional operator (?.) instead of explicit null check"⟩]
    else []) 1 lines

/-- The `disposable_types` list of `check_disposable_usage`. -/
def disposable_types : List String :=
  ["FileStream", "StreamWriter", "StreamReader", "SqlConnection", "HttpClient"]

/-- `StringBasedChecker.check_disposable_usage`, on the line list. -/
def check_disposable_usage (path : String) (lines : List String) : List Issue :=
  perLineIssues (fun ln line =>
    if pyStartsWith (pyStrip line) "//" then []
    else
      disposable_types.filterMap (fun t =>
        if containsSub ("new " ++ t) line && !containsSub "using" line then
          some ⟨clean_file_path path, ln, "error", "BCS010",
            "IDisposable type '" ++ t ++ "' should be wrapped in using statement"⟩
        else none)) 1 lines

/-- `StringBasedChecker.check_string_interpolation`, on the line list. -/
def check_string_interpolation (path : String) (lines : List String) : List Issue :=
  perLineIssues (fun ln line =>
    if pyStartsWith (pyStrip line) "//" || !containsSub "\"" (pyStrip line) then []
    else if reSearch strInterpRE1 line.toList || reSearch strInterpRE2 line.toList then
      [⟨clean_file_path path, ln, "warning", "BCW021",
        "Consider using string interpolation ($\"...\") instead of concatenation"⟩]
    else []) 1 lines

/-- The loop state machine of `check_string_in_loops`
(`string_checks.py` lines 290-324). -/
def stringLoopGo (path : String) : Bool → Nat → List String → List Issue
  | _, _, [] => []
  | inLoop, ln, line :: rest =>
    if pyStartsWith (pyStrip line) "//" then stringLoopGo path inLoop (ln + 1) rest
    else if reSearchWordStart loopKwRE line.toList false then
      stringLoopGo path true (ln + 1) rest
    else if inLoop && containsSub "\x7b" line then stringLoopGo path inLoop (ln + 1) rest
    else if inLoop && containsSub "\x7d" line then stringLoopGo path false (ln + 1) rest
    else
      (if inLoop && containsSub "+=" line &&
          (containsSub "string" (pyLower line) || reSearch strLoopRE1 line.toList ||
           reSearch strLoopRE2 line.toList) then
        [⟨clean_file_path path, ln, "warning", "BCW025",
          "String concatenation in loop - consider using StringBuilder"⟩]
       else []) ++ stringLoopGo path inLoop (ln + 1) rest

/-- `StringBasedChecker.check_string_in_loops`, on the line list. -/
def check_string_in_loops (path : String) (lines : List String) : List Issue :=
  stringLoopGo path false 1 lines

/-- `StringBasedChecker.check_linq_performance`, on the line list. -/
def check_linq_performance (path : String) (lines : List String) : List Issue :=
  perLineIssues (fun ln line =>
    if pyStartsWith (pyStrip line) "//" then []
    else
      (if reSearch countGtZeroRE line.toList then
        [⟨clean_file_path path, ln, "warning", "BCW026",
          "Use Any() instead of Count() > 0 for better performance"⟩]
       else []) ++
      (if countSubList ".ToList()".toList line.toList > 1 then
        [⟨clean_file_path path, ln, "warning", "BCW027",
          "Multiple ToList() calls may cause multiple enumerations"⟩]
       else [])) 1 lines

/-- The complexity keywords counted per line (`string_checks.py` line 369). -/
def complexityKeywords : List String :=
  ["if", "else if", "while", "for", "foreach", "switch", "case", "catch", "&&", "||", "?"]

/-- One line's contribution to the complexity counter:
`sum of line.lower().count(keyword)`. -/
def complexityOfLine (line : String) : Nat :=
  (complexityKeywords.map (fun kw => countSubList kw.toList (pyLower line).toList)).sum

/-- The BCW040 issue of `check_cyclomatic_complexity`. -/
def mkComplexityIssue (path : String) (ln : Nat) (name : String) (cx : Nat) : Issue :=
  ⟨clean_file_path path, ln, "warning", "BCW040",
   "Method '" ++ name ++ "' has high cyclomatic complexity (" ++ toString cx ++
     ") - consider refactoring"⟩

/-- The method-declaration detector of `check_cyclomatic_complexity`:
`re.search(method_pattern, line) and '{' in line`. -/
def cycloIsDecl (line : String) : Bool :=
  reSearch cycloMethodRE line.toList && containsSub "\x7b" line

/-- The flush of a pending method when a new declaration begins
(`string_checks.py` lines 378-385). -/
def cycloDeclIssues (path : String) (st : Option (Nat × String × Nat))
    (isDecl : Bool) : List Issue :=
  match st with
  | some (ms, name, cx) =>
    if isDecl && decide (cx > 10) then [mkComplexityIssue path ms name cx] else []
  | none => []

/-- One line of `check_cyclomatic_complexity`
(`string_checks.py` lines 371-405): given the state — `none` outside a
method, `some (method_start, method_name, complexity)` inside one — produce
the issues emitted on this line and the next state.  A new declaration first
flushes a pending high-complexity method, then restarts the counter at 1;
the keyword occurrences of the line are added, and a line closing at least as
many braces as it opens ends the method, flushing it if its complexity
exceeds 10. -/
def cycloLineStep (path : String) (st : Option (Nat × String × Nat)) (ln : Nat)
    (line : String) : List Issue × Option (Nat × String × Nat) :=
  if pyStartsWith (pyStrip line) "//" then ([], st)
  else
    match (if cycloIsDecl line then some (ln, extract_method_name line, 1) else st) with
    | none => (cycloDeclIssues path st (cycloIsDecl line), none)
    | some (ms, name, cx) =>
      if containsSub "\x7d" line && decide (countChar '}' line ≥ countChar '{' line) then
        (cycloDeclIssues path st (cycloIsDecl line) ++
          (if cx + complexityOfLine line > 10 then
            [mkComplexityIssue path ms name (cx + complexityOfLine line)]
           else []),
         none)
      else (cycloDeclIssues path st (cycloIsDecl line), some (ms, name, cx + complexityOfLine line))

/-- The line loop of `check_cyclomatic_complexity`. -/
def cycloGo (path : String) : Option (Nat × String × Nat) → Nat → List String → List Issue
  | _, _, [] => []
  | st, ln, line :: rest =>
    (cycloLineStep path st ln line).1 ++
      cycloGo path (cycloLineStep path st ln line).2 (ln + 1) rest

/-- `StringBasedChecker.check_cyclomatic_complexity`, on the line list. -/
def check_cyclomatic_complexity (path : String) (lines : List String) : List Issue :=
  cycloGo path none 1 lines

/-- `StringBasedChecker.check_forbidden_strings`: per registered pattern (in
registration order), one issue per line containing it. -/
def check_forbidden_strings (path : String) (lines : List String)
    (forbidden : List (String × String × String × String)) : List Issue :=
  forbidden.flatMap (fun entry =>
    perLineIssues (fun ln line =>
      if containsSub entry.1 line then
        [⟨clean_file_path path, ln, entry.2.1, entry.2.2.1, entry.2.2.2⟩]
      else []) 1 lines)

/-- `CodeQualityChecker._register_forbidden_strings`: the default
registrations, in order: `(pattern, severity, code, description)`. -/
def default_forbidden_strings : List (String × String × String × String) :=
  [("throw new NotImplementedException(", "error", "BCS002",
    "NotImplementedException found - should be properly implemented"),
   ("name\x7d ", "error", "BCS004",
    "Logging format violation 'name\x7d ' found - check for malformed interpolation"),
   ("System.Threading.Thread.Sleep", "error", "BCS030",
    "Thread.Sleep can cause performance issues - use async/await patterns"),
   ("Console.WriteLine", "warning", "BCW001",
    "Console.WriteLine should be replaced with ModLogger"),
   ("Debug.Log", "warning", "BCW002",
    "Debug.Log should be replaced with ModLogger"),
   ("UnityEngine.Debug.Log", "warning", "BCW003",
    "Unity Debug.Log should be replaced with ModLogger"),
   (".Result", "warning", "BCW060",
    "Synchronous access to async result can cause deadlocks - use await"),
   ("ExtraLogging = true", "warning", "BCW061",
    "Too much logging of Harmony Patch. Ok for Debug, but not ok for Release")]

/-- The pattern `results.append(CheckResult(...)) if issues` of `check_file`:
a check contributes a `CheckResult` only when it found issues. -/
def resultIfAny (name : String) (issues : List Issue) : List CheckResult :=
  if issues.isEmpty then [] else [⟨name, issues⟩]

/-- `CodeQualityChecker.check_file` in string-based mode (the structural
Roslyn analyzer is an external .NET component, absent in the default
environment, so the fallback of `_run_string_based_checks` plus
`_run_additional_string_checks` runs): the checks in invocation order with
the default forbidden-string registration. -/
def check_file (path : String) (lines : List String) : List CheckResult :=
  resultIfAny "forbidden_strings"
      (check_forbidden_strings path lines default_forbidden_strings) ++
    resultIfAny "harmony_patch_classes_string"
      (check_harmony_patch_class_declaration path lines) ++
    resultIfAny "harmony_patch_methods_string"
      (check_harmony_patch_method_declaration path lines) ++
    resultIfAny "empty_catch_blocks_string" (check_empty_catch_blocks path lines) ++
    resultIfAny "magic_numbers_string" (check_magic_numbers path lines) ++
    resultIfAny "cyclomatic_complexity_string" (check_cyclomatic_complexity path lines) ++
    resultIfAny "todo_comments" (check_todo_comments path lines) ++
    resultIfAny "null_checks" (check_null_checks path lines) ++
    resultIfAny "disposable_usage" (check_disposable_usage path lines) ++
    resultIfAny "string_interpolation" (check_string_interpolation path lines) ++
    resultIfAny "string_in_loops" (check_string_in_loops path lines) ++
    resultIfAny "linq_performance" (check_linq_performance path lines)

theorem perLineIssues_all (f : Nat → String → List Issue) (P : Issue → Prop)
    (hf : ∀ n l i, i ∈ f n l → P i) :
    ∀ (ls : List String) (n : Nat) (i : Issue), i ∈ perLineIssues f n ls → P i := by
  intro ls
  induction ls with
  | nil => intro n i h; simp [perLineIssues] at h
  | cons l rest ih =>
    intro n i h
    rw [perLineIssues] at h
    rcases List.mem_append.mp h with h1 | h1
    · exact hf n l i h1
    · exact ih (n + 1) i h1

theorem sev_todo (path : String) (lines : List String) (i : Issue)
    (h : i ∈ check_todo_comments path lines) : i.severity = "warning" := by
  refine perLineIssues_all _ (fun i => i.severity = "warning") ?_ lines 1 i h
  intro n l j hj
  unfold todoPerLine at hj
  split at hj
  · rw [List.mem_singleton.mp hj]
  · simp at hj

theorem sev_null (path : String) (lines : List String) (i : Issue)
    (h : i ∈ check_null_checks path lines) : i.severity = "warning" := by
  refine perLineIssues_all _ (fun i => i.severity = "warning") ?_ lines 1 i h
  intro n l j hj
  split at hj
  · simp at hj
  · split at hj
    · rw [List.mem_singleton.mp hj]
    · simp at hj

theorem sev_disposable (path : String) (lines : List String) (i : Issue)
    (h : i ∈ check_disposable_usage path lines) : i.severity = "error" := by
  refine perLineIssues_all _ (fun i => i.severity = "error") ?_ lines 1 i h
  intro n l j hj
  split at hj
  · simp at hj
  · obtain ⟨t, -, hj2⟩ := List.mem_filterMap.mp hj
    split at hj2
    · injection hj2 with h2; rw [← h2]
    · cases hj2

theorem sev_interpolation (path : String) (lines : List String) (i : Issue)
    (h : i ∈ check_string_interpolation path lines) : i.severity = "warning" := by
  refine perLineIssues_all _ (fun i => i.severity = "warning") ?_ lines 1 i h
  intro n l j hj
  split at hj
  · simp at hj
  · split at hj
    · rw [List.mem_singleton.mp hj]
    · simp at hj

theorem sev_linq (path : String) (lines : List String) (i : Issue)
    (h : i ∈ check_linq_performance path lines) : i.severity = "warning" := by
  refine perLineIssues_all _ (fun i => i.severity = "warning") ?_ lines 1 i h
  intro n l j hj
  split at hj
  · simp at hj
  · rcases List.mem_append.mp hj with h1 | h1
    · split at h1
      · rw [List.mem_singleton.mp h1]
      · simp at h1
    · split at h1
      · rw [List.mem_singleton.mp h1]
      · simp at h1

theorem sev_magic (path : String) (lines : List String) (i : Issue)
    (h : i ∈ check_magic_numbers path lines) : i.severity = "warning" := by
  refine perLineIssues_all _ (fun i => i.severity = "warning") ?_ lines 1 i h
  intro n l j hj
  unfold magicPerLine at hj
  split at hj
  · simp at hj
  · obtain ⟨m, -, hm2⟩ := List.mem_filterMap.mp hj
    simp only at hm2
    by_cases h1 : ((digitsToNat m.2.2 : Int)) ∈ acceptableNumbers
    · rw [if_pos h1] at hm2; cases hm2
    · rw [if_neg h1] at hm2
      by_cases h2 : containsSub "const" (pyLower l) = true
      · rw [if_pos h2] at hm2; cases hm2
      · rw [if_neg h2] at hm2
        by_cases h3 : is_guid_context l.toList m.1 m.2.1 = true
        · rw [if_pos h3] at hm2; cases hm2
        · rw [if_neg h3] at hm2
          injection hm2 with h4
          rw [← h4]

theorem sev_forbidden (path : String) (lines : List String) (i : Issue)
    (h : i ∈ check_forbidden_strings path lines default_forbidden_strings) :
    i.severity = "error" ∨ i.severity = "warning" := by
  unfold check_forbidden_strings at h
  obtain ⟨e, he, h2⟩ := List.mem_flatMap.mp h
  have hsev : i.severity = e.2.1 := by
    refine perLineIssues_all _ (fun i => i.severity = e.2.1) ?_ lines 1 i h2
    intro n l j hj
    split at hj
    · rw [List.mem_singleton.mp hj]
    · simp at hj
  rw [hsev]
  simp only [default_forbidden_strings, List.mem_cons, List.not_mem_nil, or_false] at he
  rcases he with rfl | rfl | rfl | rfl | rfl | rfl | rfl | rfl
  · exact Or.inl rfl
  · exact Or.inl rfl
  · exact Or.inl rfl
  · exact Or.inr rfl
  · exact Or.inr rfl
  · exact Or.inr rfl
  · exact Or.inr rfl
  · exact Or.inr rfl

theorem sev_harmonyClassIssue (path : String) (ln : Nat) (d : String) (i : Issue)
    (h : i ∈ harmonyClassIssue path ln d) : i.severity = "error" := by
  unfold harmonyClassIssue at h
  simp only at h
  split at h
  · simp at h
  · rw [List.mem_singleton.mp h]

theorem sev_hcClassGo (path : String) :
    ∀ (fuel : Nat) (rem : List String) (ln : Nat) (i : Issue),
      i ∈ hcClassGo path fuel rem ln → i.severity = "error" := by
  intro fuel
  induction fuel with
  | zero => intro rem ln i h; rw [hcClassGo] at h; simp at h
  | succ fuel ih =>
    intro rem ln i h
    cases rem with
    | nil => simp [hcClassGo] at h
    | cons l rest =>
      rw [hcClassGo] at h
      split at h
      · exact ih rest (ln + 1) i h
      · split at h
        · rcases hfd : findDeclAfterPatch rest with - | ⟨k, sd⟩
          · rw [hfd] at h
            simp only at h
            rw [List.mem_singleton.mp h]
          · rw [hfd] at h
            cases sd with
            | none =>
              simp only at h
              exact ih (rest.drop k) (ln + 1 + k) i h
            | some d =>
              simp only at h
              rcases List.mem_append.mp h with h1 | h1
              · exact sev_harmonyClassIssue path (ln + 1 + k) d i h1
              · exact ih (rest.drop k) (ln + 1 + k) i h1
        · exact ih rest (ln + 1) i h

theorem sev_transpiler_calls (path : String) (lines : List String) (ms : Nat)
    (t : String) (i : Issue)
    (h : i ∈ _check_transpiler_method_calls_simple path lines ms t) :
    i.severity = "error" := by
  unfold _check_transpiler_method_calls_simple at h
  obtain ⟨k, -, h2⟩ := List.mem_flatMap.mp h
  cases hget : lines.get? k with
  | none => rw [hget] at h2; simp at h2
  | some line =>
    rw [hget] at h2
    simp only at h2
    unfold transpilerCallIssuesLine at h2
    split at h2
    · simp at h2
    · obtain ⟨n', -, heq⟩ := List.mem_filterMap.mp h2
      split at heq
      · cases heq
      · rename_i v' hlv
        by_cases hps : (v'.is_public && v'.is_static) = true
        · rw [if_pos hps] at heq; cases heq
        · rw [if_neg hps] at heq
          by_cases hpr : (!v'.is_private) = true
          · rw [if_pos hpr] at heq
            injection heq with h3
            rw [← h3]
            rfl
          · rw [if_neg hpr] at heq; cases heq

theorem sev_hmGo (path : String) (lines : List String) :
    ∀ (fuel : Nat) (i0 : Nat) (i : Issue),
      i ∈ hmGo path lines fuel i0 → i.severity = "error" := by
  intro fuel
  induction fuel with
  | zero => intro i0 i h; rw [hmGo] at h; simp at h
  | succ fuel ih =>
    intro i0 i h
    rw [hmGo] at h
    cases hget : lines.get? i0 with
    | none => rw [hget] at h; simp at h
    | some l =>
      rw [hget] at h
      simp only at h
      split at h
      · exact ih (i0 + 1) i h
      · split at h
        · split at h
          · rcases List.mem_append.mp h with h1 | h1
            · split at h1
              · rename_i sl full
                split at h1
                · rw [List.mem_singleton.mp h1]
                · split at h1
                  · exact sev_transpiler_calls path lines _ _ i h1
                  · simp at h1
              · rw [List.mem_singleton.mp h1]
            · exact ih _ i h1
          · exact ih (i0 + 1) i h
        · exact ih (i0 + 1) i h

theorem sev_stringLoopGo (path : String) :
    ∀ (ls : List String) (inLoop : Bool) (ln : Nat) (i : Issue),
      i ∈ stringLoopGo path inLoop ln ls → i.severity = "warning" := by
  intro ls
  induction ls with
  | nil => intro inLoop ln i h; simp [stringLoopGo] at h
  | cons l rest ih =>
    intro inLoop ln i h
    rw [stringLoopGo] at h
    split at h
    · exact ih inLoop (ln + 1) i h
    · split at h
      · exact ih true (ln + 1) i h
      · split at h
        · exact ih inLoop (ln + 1) i h
        · split at h
          · exact ih false (ln + 1) i h
          · rcases List.mem_append.mp h with h1 | h1
            · split at h1
              · rw [List.mem_singleton.mp h1]
              · simp at h1
            · exact ih inLoop (ln + 1) i h1

theorem sev_mkComplexityIssue (path : String) (ms : Nat) (name : String) (cx : Nat) :
    (mkComplexityIssue path ms name cx).severity = "warning" := rfl

theorem sev_cycloDeclIssues (path : String) (st : Option (Nat × String × Nat))
    (isDecl : Bool) (i : Issue) (h : i ∈ cycloDeclIssues path st isDecl) :
    i.severity = "warning" := by
  unfold cycloDeclIssues at h
  split at h
  · split at h
    · rw [List.mem_singleton.mp h]
      exact sev_mkComplexityIssue ..
    · simp at h
  · simp at h

theorem sev_cycloLineStep (path : String) (st : Option (Nat × String × Nat))
    (ln : Nat) (line : String) (i : Issue)
    (h : i ∈ (cycloLineStep path st ln line).1) : i.severity = "warning" := by
  unfold cycloLineStep at h
  split at h
  · simp at h
  · split at h
    · dsimp only at h
      exact sev_cycloDeclIssues path st (cycloIsDecl line) i h
    · split at h
      · dsimp only at h
        rcases List.mem_append.mp h with h1 | h1
        · exact sev_cycloDeclIssues path st (cycloIsDecl line) i h1
        · split at h1
          · rw [List.mem_singleton.mp h1]
            exact sev_mkComplexityIssue ..
          · simp at h1
      · dsimp only at h
        exact sev_cycloDeclIssues path st (cycloIsDecl line) i h

theorem sev_cycloGo (path : String) :
    ∀ (ls : List String) (st : Option (Nat × String × Nat)) (ln : Nat) (i : Issue),
      i ∈ cycloGo path st ln ls → i.severity = "warning" := by
  intro ls
  induction ls with
  | nil => intro st ln i h; simp [cycloGo] at h
  | cons l rest ih =>
    intro st ln i h
    rw [cycloGo] at h
    rcases List.mem_append.mp h with h1 | h1
    · exact sev_cycloLineStep path st ln l i h1
    · exact ih _ (ln + 1) i h1

theorem mem_resultIfAny {r : CheckResult} {name : String} {issues : List Issue}
    (h : r ∈ resultIfAny name issues) : r.issues = issues := by
  unfold resultIfAny at h
  split at h
  · simp at h
  · rw [List.mem_singleton.mp h]

/-- The derived views of a `CheckResult` whose severities are all `error` or
`warning` partition its issue list: order-preserving sublists, jointly
exhaustive, mutually exclusive. -/
theorem checkResult_partition (r : CheckResult)
    (h : ∀ i ∈ r.issues, i.severity = "error" ∨ i.severity = "warning") :
    (∀ i, i ∈ r.issues ↔ i ∈ r.errors ∨ i ∈ r.warnings) ∧
    (∀ i, ¬(i ∈ r.errors ∧ i ∈ r.warnings)) ∧
    r.errors.Sublist r.issues ∧ r.warnings.Sublist r.issues := by
  refine ⟨?_, ?_, List.filter_sublist _, List.filter_sublist _⟩
  · intro i
    constructor
    · intro hi
      rcases h i hi with he | hw
      · exact Or.inl (List.mem_filter.mpr ⟨hi, by simp [he]⟩)
      · exact Or.inr (List.mem_filter.mpr ⟨hi, by simp [hw]⟩)
    · intro hi
      rcases hi with he | hw
      · exact (List.mem_filter.mp he).1
      · exact (List.mem_filter.mp hw).1
  · intro i ⟨he, hw⟩
    have h1 := (List.mem_filter.mp he).2
    have h2 := (List.mem_filter.mp hw).2
    simp only [beq_iff_eq] at h1 h2
    rw [h1] at h2
    exact absurd h2 (by decide)

/-- C9: every issue of every check result produced by the default-configured
checker (string-based mode) has severity `error` or `warning`, and the
derived errors and warnings views partition the result's issue list: each is
an order-preserving sublist, every issue lies in exactly one of them. -/
theorem issue_severity_partition :
    ∀ (path : String) (lines : List String) (r : CheckResult),
      r ∈ check_file path lines →
      (∀ i ∈ r.issues, i.severity = "error" ∨ i.severity = "warning") ∧
      (∀ i, i ∈ r.issues ↔ i ∈ r.errors ∨ i ∈ r.warnings) ∧
      (∀ i, ¬(i ∈ r.errors ∧ i ∈ r.warnings)) ∧
      r.errors.Sublist r.issues ∧ r.warnings.Sublist r.issues := by
  intro path lines r hr
  have hsev : ∀ i ∈ r.issues, i.severity = "error" ∨ i.severity = "warning" := by
    unfold check_file at hr
    simp only [List.mem_append] at hr
    rcases hr with ((((((((((h | h) | h) | h) | h) | h) | h) | h) | h) | h) | h) | h
    · intro i hi; rw [mem_resultIfAny h] at hi
      exact sev_forbidden path lines i hi
    · intro i hi; rw [mem_resultIfAny h] at hi
      exact Or.inl (sev_hcClassGo path _ _ _ i hi)
    · intro i hi; rw [mem_resultIfAny h] at hi
      exact Or.inl (sev_hmGo path lines _ _ i hi)
    · intro i hi; rw [mem_resultIfAny h] at hi
      rw [check_empty_catch_blocks, emptyCatchGo_eq_nil] at hi
      simp at hi
    · intro i hi; rw [mem_resultIfAny h] at hi
      exact Or.inr (sev_magic path lines i hi)
    · intro i hi; rw [mem_resultIfAny h] at hi
      exact Or.inr (sev_cycloGo path lines _ _ i hi)
    · intro i hi; rw [mem_resultIfAny h] at hi
      exact Or.inr (sev_todo path lines i hi)
    · intro i hi; rw [mem_resultIfAny h] at hi
      exact Or.inr (sev_null path lines i hi)
    · intro i hi; rw [mem_resultIfAny h] at hi
      exact Or.inl (sev_disposable path lines i hi)
    · intro i hi; rw [mem_resultIfAny h] at hi
      exact Or.inr (sev_interpolation path lines i hi)
    · intro i hi; rw [mem_resultIfAny h] at hi
      exact Or.inr (sev_stringLoopGo path lines _ _ i hi)
    · intro i hi; rw [mem_resultIfAny h] at hi
      exact Or.inr (sev_linq path lines i hi)
  have hp := checkResult_partition r hsev
  exact ⟨hsev, hp.1, hp.2.1, hp.2.2.1, hp.2.2.2⟩

/-- Witness for C9: on the one-line file `// TODO: x` the checker produces
the `todo_comments` result, and its single issue's severity is `error` or
`warning` (it is `warning`). -/
theorem issue_severity_partition_witness :
    (⟨"W.cs", 1, "warning", "BCW013", "TODO: x"⟩ : Issue).severity = "error" ∨
    (⟨"W.cs", 1, "warning", "BCW013", "TODO: x"⟩ : Issue).severity = "warning" :=
  (issue_severity_partition "./W.cs" ["// TODO: x"]
    ⟨"todo_comments", [⟨"W.cs", 1, "warning", "BCW013", "TODO: x"⟩]⟩ (by decide)).1
    ⟨"W.cs", 1, "warning", "BCW013", "TODO: x"⟩ (by decide)

/-! ## C8: result-file retention (`reporter.py`, `Reporter.cleanup_old_result_files`)

The cleanup runs over the file names matching the glob
`code_check_results_*.txt` in the working directory; we model the candidate
set as an arbitrary list of names and keep the regex/`strptime` filter, the
5-minute windowing, the per-window cap and the global cap exactly as in the
source. `list.sort(key=..., reverse=True)` is a stable newest-first sort,
modelled by `List.insertionSort` with a non-strict newest-first relation
(equal keys keep their original relative order, as in CPython). `datetime`
comparison is lexicographic on the six fields; every field except the
four-digit year is parsed from exactly two digits, so it is below 100 and
the comparison agrees with the numeric order of `tsKey`. -/

/-- A parsed result-file timestamp: the six `strptime` fields. -/
structure TS where
  y : Nat
  mo : Nat
  d : Nat
  h : Nat
  mi : Nat
  s : Nat
deriving DecidableEq, Repr

/-- Numeric encoding of a timestamp, ordered like `datetime` comparison
(all fields after the year are below 100 for parsed timestamps). -/
def tsKey (t : TS) : Nat :=
  ((((t.y * 100 + t.mo) * 100 + t.d) * 100 + t.h) * 100 + t.mi) * 100 + t.s

def isLeap (y : Nat) : Bool :=
  (y % 4 == 0 && y % 100 != 0) || y % 400 == 0

def daysInMonth (y mo : Nat) : Nat :=
  if mo = 2 then (if isLeap y then 29 else 28)
  else if mo = 4 ∨ mo = 6 ∨ mo = 9 ∨ mo = 11 then 30
  else 31

/-- Field validity exactly as `datetime.strptime(.., "%Y%m%d_%H%M%S")`
accepts an 8-digit date part and 6-digit time part: with the fields read at
fixed positions (four digits of year, two of everything else), parsing
succeeds iff month is 1..12, day is 1..days-in-month (leap years counted),
hour is at most 23, minute and second at most 59, and the year is nonzero
(`datetime` years run 1..9999; the upper bound holds from the four digits). -/
def validTS (t : TS) : Bool :=
  1 ≤ t.y && 1 ≤ t.mo && t.mo ≤ 12 && 1 ≤ t.d && t.d ≤ daysInMonth t.y t.mo &&
  t.h ≤ 23 && t.mi ≤ 59 && t.s ≤ 59

/-- Chomp an exact literal off the front of a character list. -/
def dropLit : List Char → List Char → Option (List Char)
  | [], l => some l
  | _ :: _, [] => none
  | p :: ps, c :: cs => if c = p then dropLit ps cs else none

/-- Read exactly `n` ASCII digits, returning them and the remainder. -/
def takeDigits : Nat → List Char → Option (List Char × List Char)
  | 0, l => some ([], l)
  | _ + 1, [] => none
  | n + 1, c :: cs =>
    if '0' ≤ c && c ≤ '9' then
      match takeDigits n cs with
      | some (ds, rest) => some (c :: ds, rest)
      | none => none
    else none

/-- The name filter of `cleanup_old_result_files`: the anchored regex
`code_check_results_(\d\x7b8\x7d_\d\x7b6\x7d)\.txt` followed by
`datetime.strptime` on the captured group, yielding the timestamp when the
name conforms and the fields are in range. -/
def parseResultFile (name : String) : Option TS :=
  match dropLit "code_check_results_".toList name.toList with
  | none => none
  | some r1 =>
    match takeDigits 8 r1 with
    | none => none
    | some (d8, r2) =>
      match dropLit ['_'] r2 with
      | none => none
      | some r3 =>
        match takeDigits 6 r3 with
        | none => none
        | some (d6, r4) =>
          if r4 = ".txt".toList then
            let t : TS := ⟨digitsToNat (d8.take 4), digitsToNat ((d8.drop 4).take 2),
              digitsToNat (d8.drop 6), digitsToNat (d6.take 2),
              digitsToNat ((d6.drop 2).take 2), digitsToNat (d6.drop 4)⟩
            if validTS t then some t else none
          else none

/-- The `(file, timestamp)` pairs of `valid_files`, in scan order. -/
def valid_files (files : List String) : List (String × TS) :=
  files.filterMap (fun f => (parseResultFile f).map (fun t => (f, t)))

/-- `timestamp.replace(minute=(timestamp.minute // 5) * 5, second=0,
microsecond=0)`: the 5-minute window key. -/
def wkey (t : TS) : TS := ⟨t.y, t.mo, t.d, t.h, t.mi / 5 * 5, 0⟩

/-- Append a file under its window key: Python dict insertion order for new
keys, list append for existing ones. -/
def insertW (ws : List (TS × List (String × TS))) (k : TS) (v : String × TS) :
    List (TS × List (String × TS)) :=
  match ws with
  | [] => [(k, [v])]
  | (k0, vs) :: rest =>
    if k0 = k then (k0, vs ++ [v]) :: rest else (k0, vs) :: insertW rest k v

def windowsGo (ws : List (TS × List (String × TS))) (l : List (String × TS)) :
    List (TS × List (String × TS)) :=
  l.foldl (fun ws v => insertW ws (wkey v.2) v) ws

/-- The `windows` dictionary, as an insertion-ordered association list. -/
def windows (vfs : List (String × TS)) : List (TS × List (String × TS)) :=
  windowsGo [] vfs

/-- Newest-first (non-strict) order on `(file, timestamp)` pairs. -/
def tsGE (a b : String × TS) : Prop := tsKey b.2 ≤ tsKey a.2

instance : DecidableRel tsGE := fun a b => Nat.decLe (tsKey b.2) (tsKey a.2)

instance : IsTotal (String × TS) tsGE :=
  ⟨fun a b => Nat.le_total (tsKey b.2) (tsKey a.2)⟩

instance : IsTrans (String × TS) tsGE :=
  ⟨fun _ _ _ hab hbc => Nat.le_trans hbc hab⟩

/-- `files_in_window.sort(key=lambda x: x[1], reverse=True)`: stable
newest-first sort. -/
def sortDesc (l : List (String × TS)) : List (String × TS) :=
  l.insertionSort tsGE

/-- `files_to_keep` after the per-window loop. -/
def bucketKeep (keep : Nat) (ws : List (TS × List (String × TS))) : List (String × TS) :=
  ws.flatMap (fun kv => (sortDesc kv.2).take keep)

/-- `files_to_delete` after the per-window loop. -/
def bucketDel (keep : Nat) (ws : List (TS × List (String × TS))) : List (String × TS) :=
  ws.flatMap (fun kv => (sortDesc kv.2).drop keep)

/-- `files_to_keep` re-sorted newest first before the global cap. -/
def keepSorted (keep : Nat) (files : List String) : List (String × TS) :=
  sortDesc (bucketKeep keep (windows (valid_files files)))

/-- The files the cleanup keeps: the newest 10 of the per-window survivors. -/
def cleanupKeep (keep : Nat) (files : List String) : List (String × TS) :=
  (keepSorted keep files).take 10

/-- The files the cleanup deletes: per-window excess, then global excess. -/
def cleanupDelete (keep : Nat) (files : List String) : List (String × TS) :=
  bucketDel keep (windows (valid_files files)) ++ (keepSorted keep files).drop 10

/-- `cleanup_old_result_files`: the returned deletion count, with every
`os.remove` succeeding. -/
def cleanup_old_result_files (keep_latest : Nat) (files : List String) : Nat :=
  (cleanupDelete keep_latest files).length

/-- The 12 conforming and one renamed result files of the retention
scenario: seven in the 12:00 window, three in single-file windows,
two on the next day. -/
def files12 : List String :=
  ["code_check_results_20250101_120001.txt",
   "code_check_results_20250101_120102.txt",
   "code_check_results_20250101_120203.txt",
   "code_check_results_20250101_120304.txt",
   "code_check_results_20250101_120405.txt",
   "code_check_results_20250101_120455.txt",
   "code_check_results_20250101_120000.txt",
   "code_check_results_20250101_120500.txt",
   "code_check_results_20250101_120600.txt",
   "code_check_results_20250101_120700.txt",
   "code_check_results_20250102_000000.txt",
   "code_check_results_20250102_000100.txt",
   "code_check_results_renamed.txt"]

theorem insertW_forall {P : String × TS → Prop} :
    ∀ (ws : List (TS × List (String × TS))) (k : TS) (v : String × TS),
      (∀ kv ∈ ws, ∀ x ∈ kv.2, P x) → P v →
      ∀ kv ∈ insertW ws k v, ∀ x ∈ kv.2, P x := by
  intro ws
  induction ws with
  | nil =>
    intro k v _ hv kv hkv x hx
    simp only [insertW, List.mem_singleton] at hkv
    subst hkv
    simp only [List.mem_singleton] at hx
    subst hx; exact hv
  | cons hd rest ih =>
    obtain ⟨k0, vs⟩ := hd
    intro k v hws hv kv hkv x hx
    simp only [insertW] at hkv
    split at hkv
    · rcases List.mem_cons.mp hkv with h | h
      · subst h
        rcases List.mem_append.mp hx with h2 | h2
        · exact hws (k0, vs) (List.mem_cons_self _ _) x h2
        · rw [List.mem_singleton.mp h2]; exact hv
      · exact hws kv (List.mem_cons_of_mem _ h) x hx
    · rcases List.mem_cons.mp hkv with h | h
      · subst h; exact hws (k0, vs) (List.mem_cons_self _ _) x hx
      · exact ih k v (fun kv1 h1 => hws kv1 (List.mem_cons_of_mem _ h1)) hv kv h x hx

theorem insertW_wkeyInv :
    ∀ (ws : List (TS × List (String × TS))) (k : TS) (v : String × TS),
      (∀ kv ∈ ws, ∀ x ∈ kv.2, wkey x.2 = kv.1) → wkey v.2 = k →
      ∀ kv ∈ insertW ws k v, ∀ x ∈ kv.2, wkey x.2 = kv.1 := by
  intro ws
  induction ws with
  | nil =>
    intro k v _ hv kv hkv x hx
    simp only [insertW, List.mem_singleton] at hkv
    subst hkv
    simp only [List.mem_singleton] at hx
    subst hx; exact hv
  | cons hd rest ih =>
    obtain ⟨k0, vs⟩ := hd
    intro k v hws hv kv hkv x hx
    simp only [insertW] at hkv
    split at hkv
    · rename_i heq
      rcases List.mem_cons.mp hkv with h | h
      · subst h
        rcases List.mem_append.mp hx with h2 | h2
        · exact hws (k0, vs) (List.mem_cons_self _ _) x h2
        · rw [List.mem_singleton.mp h2]
          rw [hv, heq]
      · exact hws kv (List.mem_cons_of_mem _ h) x hx
    · rcases List.mem_cons.mp hkv with h | h
      · subst h; exact hws (k0, vs) (List.mem_cons_self _ _) x hx
      · exact ih k v (fun kv1 h1 => hws kv1 (List.mem_cons_of_mem _ h1)) hv kv h x hx

theorem insertW_keys_sub :
    ∀ (ws : List (TS × List (String × TS))) (k : TS) (v : String × TS),
      ∀ k1 ∈ (insertW ws k v).map Prod.fst, k1 ∈ ws.map Prod.fst ∨ k1 = k := by
  intro ws
  induction ws with
  | nil =>
    intro k v k1 h1
    simp only [insertW, List.map_cons, List.map_nil, List.mem_singleton] at h1
    exact Or.inr h1
  | cons hd rest ih =>
    obtain ⟨k0, vs⟩ := hd
    intro k v k1 h1
    simp only [insertW] at h1
    split at h1
    · simp only [List.map_cons] at h1
      rcases List.mem_cons.mp h1 with h | h
      · exact Or.inl (by simp [h])
      · exact Or.inl (by simp only [List.map_cons]; exact List.mem_cons_of_mem _ h)
    · simp only [List.map_cons] at h1
      rcases List.mem_cons.mp h1 with h | h
      · exact Or.inl (by simp [h])
      · rcases ih k v k1 h with h2 | h2
        · exact Or.inl (by simp only [List.map_cons]; exact List.mem_cons_of_mem _ h2)
        · exact Or.inr h2

theorem insertW_keys_nodup :
    ∀ (ws : List (TS × List (String × TS))) (k : TS) (v : String × TS),
      (ws.map Prod.fst).Nodup → ((insertW ws k v).map Prod.fst).Nodup := by
  intro ws
  induction ws with
  | nil =>
    intro k v _
    simp [insertW]
  | cons hd rest ih =>
    obtain ⟨k0, vs⟩ := hd
    intro k v hnd
    simp only [List.map_cons, List.nodup_cons] at hnd
    simp only [insertW]
    split
    · simp only [List.map_cons, List.nodup_cons]
      exact hnd
    · rename_i hne
      simp only [List.map_cons, List.nodup_cons]
      refine ⟨?_, ih k v hnd.2⟩
      intro hmem
      rcases insertW_keys_sub rest k v k0 hmem with h | h
      · exact hnd.1 h
      · exact hne h

theorem windowsGo_inv (P : String × TS → Prop) :
    ∀ (l : List (String × TS)) (ws : List (TS × List (String × TS))),
      (∀ kv ∈ ws, ∀ x ∈ kv.2, P x) →
      (∀ v ∈ l, P v) →
      (∀ kv ∈ ws, ∀ x ∈ kv.2, wkey x.2 = kv.1) →
      (ws.map Prod.fst).Nodup →
      (∀ kv ∈ windowsGo ws l, ∀ x ∈ kv.2, P x) ∧
      (∀ kv ∈ windowsGo ws l, ∀ x ∈ kv.2, wkey x.2 = kv.1) ∧
      ((windowsGo ws l).map Prod.fst).Nodup := by
  intro l
  induction l with
  | nil =>
    intro ws h1 _ h3 h4
    exact ⟨h1, h3, h4⟩
  | cons v rest ih =>
    intro ws h1 h2 h3 h4
    have hstep : windowsGo ws (v :: rest) = windowsGo (insertW ws (wkey v.2) v) rest := by
      simp [windowsGo]
    rw [hstep]
    exact ih (insertW ws (wkey v.2) v)
      (insertW_forall ws (wkey v.2) v h1 (h2 v (List.mem_cons_self _ _)))
      (fun x hx => h2 x (List.mem_cons_of_mem _ hx))
      (insertW_wkeyInv ws (wkey v.2) v h3 rfl)
      (insertW_keys_nodup ws (wkey v.2) v h4)

theorem windows_mem (vfs : List (String × TS)) :
    ∀ kv ∈ windows vfs, ∀ x ∈ kv.2, x ∈ vfs :=
  (windowsGo_inv (· ∈ vfs) vfs [] (by simp) (fun _ hv => hv) (by simp) (by simp)).1

theorem windows_wkey (vfs : List (String × TS)) :
    ∀ kv ∈ windows vfs, ∀ x ∈ kv.2, wkey x.2 = kv.1 :=
  (windowsGo_inv (fun _ => True) vfs [] (by simp) (by simp) (by simp) (by simp)).2.1

theorem windows_nodup (vfs : List (String × TS)) :
    ((windows vfs).map Prod.fst).Nodup :=
  (windowsGo_inv (fun _ => True) vfs [] (by simp) (by simp) (by simp) (by simp)).2.2

theorem sortDesc_sorted (l : List (String × TS)) : List.Sorted tsGE (sortDesc l) :=
  List.sorted_insertionSort tsGE l

theorem sortDesc_perm (l : List (String × TS)) : List.Perm (sortDesc l) l :=
  List.perm_insertionSort tsGE l

theorem sorted_take_drop {l : List (String × TS)} (h : List.Sorted tsGE l) (n : Nat) :
    ∀ g ∈ l.take n, ∀ f ∈ l.drop n, tsKey f.2 ≤ tsKey g.2 := by
  have hp : List.Pairwise tsGE (l.take n ++ l.drop n) := by
    rw [List.take_append_drop]; exact h
  exact fun g hg f hf => (List.pairwise_append.mp hp).2.2 g hg f hf

theorem mem_valid_files {files : List String} {p : String × TS}
    (h : p ∈ valid_files files) : p.1 ∈ files ∧ parseResultFile p.1 = some p.2 := by
  unfold valid_files at h
  obtain ⟨f, hf, heq⟩ := List.mem_filterMap.mp h
  rcases hparse : parseResultFile f with _ | t
  · rw [hparse] at heq; exact Option.noConfusion heq
  · rw [hparse] at heq
    have heq2 : (f, t) = p := Option.some.inj heq
    rw [← heq2]
    exact ⟨hf, hparse⟩

theorem nodup_key_unique :
    ∀ {ws : List (TS × List (String × TS))}, (ws.map Prod.fst).Nodup →
      ∀ {kv kv1 : TS × List (String × TS)}, kv ∈ ws → kv1 ∈ ws → kv.1 = kv1.1 → kv = kv1 := by
  intro ws
  induction ws with
  | nil => intro _ kv kv1 h1; cases h1
  | cons hd rest ih =>
    intro hnd kv kv1 h1 h2 he
    simp only [List.map_cons, List.nodup_cons] at hnd
    rcases List.mem_cons.mp h1 with h1 | h1 <;> rcases List.mem_cons.mp h2 with h2 | h2
    · rw [h1, h2]
    · exfalso; apply hnd.1
      rw [← h1, he]
      exact List.mem_map_of_mem Prod.fst h2
    · exfalso; apply hnd.1
      rw [← h2, ← he]
      exact List.mem_map_of_mem Prod.fst h1
    · exact ih hnd.2 h1 h2 he

theorem mem_bucketKeep {keep : Nat} {ws : List (TS × List (String × TS))} {p : String × TS}
    (h : p ∈ bucketKeep keep ws) :
    ∃ kv, kv ∈ ws ∧ p ∈ (sortDesc kv.2).take keep ∧ p ∈ kv.2 := by
  obtain ⟨kv, hkv, hp⟩ := List.mem_flatMap.mp h
  exact ⟨kv, hkv, hp, (sortDesc_perm kv.2).mem_iff.mp (List.mem_of_mem_take hp)⟩

theorem mem_bucketDel {keep : Nat} {ws : List (TS × List (String × TS))} {p : String × TS}
    (h : p ∈ bucketDel keep ws) :
    ∃ kv, kv ∈ ws ∧ p ∈ (sortDesc kv.2).drop keep ∧ p ∈ kv.2 := by
  obtain ⟨kv, hkv, hp⟩ := List.mem_flatMap.mp h
  exact ⟨kv, hkv, hp, (sortDesc_perm kv.2).mem_iff.mp (List.mem_of_mem_drop hp)⟩

theorem bucketKeep_filter_le (keep : Nat) (k : TS) :
    ∀ ws : List (TS × List (String × TS)),
      (∀ kv ∈ ws, ∀ x ∈ kv.2, wkey x.2 = kv.1) → (ws.map Prod.fst).Nodup →
      ((bucketKeep keep ws).filter (fun v => wkey v.2 == k)).length ≤ keep := by
  intro ws
  induction ws with
  | nil => intro _ _; simp [bucketKeep]
  | cons hd rest ih =>
    obtain ⟨k0, vs⟩ := hd
    intro hinv hnd
    simp only [List.map_cons, List.nodup_cons] at hnd
    have hrest : ∀ kv ∈ rest, ∀ x ∈ kv.2, wkey x.2 = kv.1 :=
      fun kv h1 => hinv kv (List.mem_cons_of_mem _ h1)
    have hhd : ∀ x ∈ vs, wkey x.2 = k0 :=
      hinv (k0, vs) (List.mem_cons_self _ _)
    have hsplit : bucketKeep keep ((k0, vs) :: rest) =
        (sortDesc vs).take keep ++ bucketKeep keep rest := by
      simp [bucketKeep]
    rw [hsplit, List.filter_append, List.length_append]
    by_cases hk : k0 = k
    · have hz : (bucketKeep keep rest).filter (fun v => wkey v.2 == k) = [] := by
        rw [List.filter_eq_nil_iff]
        intro p hp
        obtain ⟨kv1, hkv1, _, hpkv⟩ := mem_bucketKeep hp
        have h1 : wkey p.2 = kv1.1 := hrest kv1 hkv1 p hpkv
        have h2 : kv1.1 ≠ k := by
          intro he
          apply hnd.1
          rw [hk, ← he]
          exact List.mem_map_of_mem Prod.fst hkv1
        simp only [beq_iff_eq]
        rw [h1]; exact h2
      rw [hz]
      simp only [List.length_nil, Nat.add_zero]
      calc ((sortDesc vs).take keep |>.filter (fun v => wkey v.2 == k)).length
          ≤ ((sortDesc vs).take keep).length := List.length_filter_le _ _
        _ ≤ keep := List.length_take_le keep _
    · have hz : ((sortDesc vs).take keep).filter (fun v => wkey v.2 == k) = [] := by
        rw [List.filter_eq_nil_iff]
        intro p hp
        have hpv : p ∈ vs := (sortDesc_perm vs).mem_iff.mp (List.mem_of_mem_take hp)
        simp only [beq_iff_eq]
        rw [hhd p hpv]; exact hk
      rw [hz]
      simp only [List.length_nil, Nat.zero_add]
      exact ih hrest hnd.2

/-- C8: the retention cleanup deletes only files whose names parse under the
`code_check_results_YYYYMMDD_HHMMSS.txt` pattern (so non-conforming names
are never deleted, whatever the counts); among the parsed files it keeps at
most `keep_latest` per 5-minute window and at most 10 overall; every file it
deletes from a window is no newer than any kept file of the same window; and
every file cut by the global cap is no newer than any kept file at all. The
claimed bounds are the `keep_latest = 5` instance. -/
theorem cleanup_retention (keep : Nat) (files : List String) :
    (∀ p ∈ cleanupDelete keep files, p.1 ∈ files ∧ parseResultFile p.1 = some p.2) ∧
    (∀ k : TS, ((cleanupKeep keep files).filter (fun v => wkey v.2 == k)).length ≤ keep) ∧
    (cleanupKeep keep files).length ≤ 10 ∧
    (∀ f ∈ cleanupDelete keep files, ∀ g ∈ cleanupKeep keep files,
      wkey f.2 = wkey g.2 → tsKey f.2 ≤ tsKey g.2) ∧
    (∀ f ∈ (keepSorted keep files).drop 10, ∀ g ∈ cleanupKeep keep files,
      tsKey f.2 ≤ tsKey g.2) := by
  have hwkey := windows_wkey (valid_files files)
  have hnd := windows_nodup (valid_files files)
  have hmem := windows_mem (valid_files files)
  have hkeep_sub : ∀ g ∈ cleanupKeep keep files,
      g ∈ bucketKeep keep (windows (valid_files files)) := by
    intro g hg
    simp only [cleanupKeep, keepSorted] at hg
    exact (sortDesc_perm _).mem_iff.mp (List.mem_of_mem_take hg)
  have hglobal : ∀ f ∈ (keepSorted keep files).drop 10, ∀ g ∈ cleanupKeep keep files,
      tsKey f.2 ≤ tsKey g.2 := by
    intro f hf g hg
    simp only [cleanupKeep] at hg
    exact sorted_take_drop (sortDesc_sorted _) 10 g hg f hf
  refine ⟨?_, ?_, ?_, ?_, hglobal⟩
  · intro p hp
    simp only [cleanupDelete] at hp
    have hv : p ∈ valid_files files := by
      rcases List.mem_append.mp hp with h | h
      · obtain ⟨kv, hkv, _, hpkv⟩ := mem_bucketDel h
        exact hmem kv hkv p hpkv
      · have h2 : p ∈ bucketKeep keep (windows (valid_files files)) := by
          have h3 : p ∈ keepSorted keep files := List.mem_of_mem_drop h
          simp only [keepSorted] at h3
          exact (sortDesc_perm _).mem_iff.mp h3
        obtain ⟨kv, hkv, _, hpkv⟩ := mem_bucketKeep h2
        exact hmem kv hkv p hpkv
    exact mem_valid_files hv
  · intro k
    have h1 : ((cleanupKeep keep files).filter (fun v => wkey v.2 == k)).length ≤
        ((keepSorted keep files).filter (fun v => wkey v.2 == k)).length := by
      simp only [cleanupKeep]
      exact ((List.take_sublist 10 _).filter _).length_le
    have h2 : ((keepSorted keep files).filter (fun v => wkey v.2 == k)).length =
        ((bucketKeep keep (windows (valid_files files))).filter
          (fun v => wkey v.2 == k)).length := by
      simp only [keepSorted]
      exact ((sortDesc_perm _).filter _).length_eq
    rw [h2] at h1
    exact Nat.le_trans h1 (bucketKeep_filter_le keep k _ hwkey hnd)
  · simp only [cleanupKeep]
    exact List.length_take_le 10 _
  · intro f hf g hg hwk
    simp only [cleanupDelete] at hf
    rcases List.mem_append.mp hf with h | h
    · obtain ⟨kv, hkv, hfd, hfkv⟩ := mem_bucketDel h
      obtain ⟨kv1, hkv1, hgt, hgkv1⟩ := mem_bucketKeep (hkeep_sub g hg)
      have he : kv.1 = kv1.1 := by
        rw [← hwkey kv hkv f hfkv, ← hwkey kv1 hkv1 g hgkv1]
        exact hwk
      have hkveq : kv = kv1 := nodup_key_unique hnd hkv hkv1 he
      rw [← hkveq] at hgt
      exact sorted_take_drop (sortDesc_sorted kv.2) keep g hgt f hfd
    · exact hglobal f h g hg

set_option maxHeartbeats 1000000 in
/-- Witness for C8 at the 12-file scenario with seven files in one window:
the oldest window-excess file is parsed and deleted, and it is older than a
kept file of the same window. -/
theorem cleanup_retention_witness :
    "code_check_results_20250101_120000.txt" ∈ files12 ∧
    parseResultFile "code_check_results_20250101_120000.txt" =
      some ⟨2025, 1, 1, 12, 0, 0⟩ ∧
    tsKey ⟨2025, 1, 1, 12, 0, 0⟩ ≤ tsKey ⟨2025, 1, 1, 12, 1, 2⟩ := by
  have h := cleanup_retention 5 files12
  have hdel : ("code_check_results_20250101_120000.txt", (⟨2025, 1, 1, 12, 0, 0⟩ : TS)) ∈
      cleanupDelete 5 files12 := by decide
  have hkeep : ("code_check_results_20250101_120102.txt", (⟨2025, 1, 1, 12, 1, 2⟩ : TS)) ∈
      cleanupKeep 5 files12 := by decide
  have h4 := h.2.2.2.1 _ hdel _ hkeep
  exact ⟨(h.1 _ hdel).1, (h.1 _ hdel).2, h4 (by decide)⟩
